import Mathlib

/-!
Verification of the numeric core of the creativeflow repository
(creativeflow/blender/flow_util.py and creativeflow/blender/io_util.py).

Modelling conventions used throughout this development:

* float32 arithmetic of the interpolation / occlusion / sanity routines is
  embedded over the rationals; numpy per-channel pixel values become lists
  of rationals (a grid value is a Vec, one entry per channel);
* an H x W x C numpy array becomes a Grid: explicit row/column/channel
  counts together with a total value function (indexing in the python code
  only ever happens at indices the code itself establishes to be in range);
* python exceptions become Except results; the distinct exception classes
  that matter to the claims are the constructors of PyExn;
* the binary .flo codec and the zip container are modelled at bit level:
  a serialized float32 is its 32-bit word (a natural number below 2^32),
  so that bit-identical equality of round-tripped data is word equality.
-/

set_option autoImplicit false
set_option maxHeartbeats 1000000

namespace CreativeFlow

/-- Pixel value of a multi-channel float image: one rational per channel. -/
abbrev Vec := List ℚ

/-- Channelwise scaling of a pixel value (numpy array * scalar). -/
def vscale (v : Vec) (s : ℚ) : Vec := v.map (fun x => x * s)

/-- Channelwise sum of two pixel values (numpy array + array). -/
def vadd (a b : Vec) : Vec := List.zipWith (fun x y => x + y) a b

/-- Dense H x W x C float array: explicit dimensions plus a total value
function giving the pixel value at (row, col). -/
structure Grid where
  rows : ℕ
  cols : ℕ
  channels : ℕ
  val : ℕ → ℕ → Vec

/-- Result of the inner helper get_neighbors of flow_util.get_val_interpolated:
previous index, (possibly clamped) next index, and the interpolation weight.
The weight is computed from the unclamped ceiling, exactly as in the source. -/
structure Neighbors where
  vprev : ℤ
  vnext : ℤ
  valpha : ℚ

/-- Embeds get_neighbors from flow_util.get_val_interpolated (lines 33-39):
v_prev = floor, v_next = ceil clamped back to v_prev when it exceeds
v_size - 1, v_alpha = ceil - v (computed before the clamp). -/
def getNeighbors (vf : ℚ) (vsize : ℕ) : Neighbors :=
  { vprev := ⌊vf⌋
    vnext := if (⌈vf⌉ : ℤ) > (vsize : ℤ) - 1 then ⌊vf⌋ else ⌈vf⌉
    valpha := (⌈vf⌉ : ℚ) - vf }

/-- Embeds flow_util.get_val_interpolated (lines 21-47). The IndexError on an
out-of-range query is the error case; otherwise the four neighbouring pixels
are blended with the alpha weights of getNeighbors. -/
def getValInterpolated (g : Grid) (rf cf : ℚ) : Except Unit Vec :=
  if rf > (g.rows : ℚ) - 1 ∨ rf < 0 ∨ cf > (g.cols : ℚ) - 1 ∨ cf < 0 then
    Except.error ()
  else
    let rn := getNeighbors rf g.rows
    let cn := getNeighbors cf g.cols
    let valPrev := vadd (vscale (g.val rn.vprev.toNat cn.vprev.toNat) cn.valpha)
                        (vscale (g.val rn.vprev.toNat cn.vnext.toNat) (1 - cn.valpha))
    let valNext := vadd (vscale (g.val rn.vnext.toNat cn.vprev.toNat) cn.valpha)
                        (vscale (g.val rn.vnext.toNat cn.vnext.toNat) (1 - cn.valpha))
    Except.ok (vadd (vscale valPrev rn.valpha) (vscale valNext (1 - rn.valpha)))

/-- Specification-side bilinear blend, written as the spec describes it:
samples at floor/ceil of the two coordinates, the column weight
c_alpha = ceil c - c multiplies the previous-column sample and 1 - c_alpha
the next-column sample, likewise for rows. -/
def bilinearBlend (g : Grid) (rf cf : ℚ) : Vec :=
  let ralpha : ℚ := (⌈rf⌉ : ℚ) - rf
  let calpha : ℚ := (⌈cf⌉ : ℚ) - cf
  let valPrev := vadd (vscale (g.val ⌊rf⌋.toNat ⌊cf⌋.toNat) calpha)
                      (vscale (g.val ⌊rf⌋.toNat ⌈cf⌉.toNat) (1 - calpha))
  let valNext := vadd (vscale (g.val ⌈rf⌉.toNat ⌊cf⌋.toNat) calpha)
                      (vscale (g.val ⌈rf⌉.toNat ⌈cf⌉.toNat) (1 - calpha))
  vadd (vscale valPrev ralpha) (vscale valNext (1 - ralpha))

lemma vadd_vscale_same (v : Vec) (a : ℚ) : vadd (vscale v a) (vscale v (1 - a)) = v := by
  induction v with
  | nil => rfl
  | cons x t ih =>
      simp only [vscale, vadd, List.map_cons, List.zipWith_cons_cons] at *
      rw [ih]
      congr 1
      ring

/-- In range, the ceiling of the query coordinate never exceeds size - 1, so
the clamp inside getNeighbors is inactive. -/
lemma getNeighbors_of_le (vf : ℚ) (vsize : ℕ) (h : vf ≤ (vsize : ℚ) - 1) :
    getNeighbors vf vsize = { vprev := ⌊vf⌋, vnext := ⌈vf⌉, valpha := (⌈vf⌉ : ℚ) - vf } := by
  have hceil : (⌈vf⌉ : ℤ) ≤ (vsize : ℤ) - 1 := by
    rw [Int.ceil_le]
    push_cast
    exact h
  simp [getNeighbors, not_lt.mpr hceil]

/-- On an in-range query the scalar interpolator returns exactly the
specification-side bilinear blend. -/
lemma getValInterpolated_ok (g : Grid) (rf cf : ℚ)
    (hr0 : 0 ≤ rf) (hr1 : rf ≤ (g.rows : ℚ) - 1)
    (hc0 : 0 ≤ cf) (hc1 : cf ≤ (g.cols : ℚ) - 1) :
    getValInterpolated g rf cf = Except.ok (bilinearBlend g rf cf) := by
  have hcond : ¬(rf > (g.rows : ℚ) - 1 ∨ rf < 0 ∨ cf > (g.cols : ℚ) - 1 ∨ cf < 0) := by
    push_neg
    exact ⟨hr1, hr0, hc1, hc0⟩
  rw [getValInterpolated, if_neg hcond, getNeighbors_of_le rf g.rows hr1,
    getNeighbors_of_le cf g.cols hc1]
  rfl

/-- Out of range, the scalar interpolator raises (IndexError in the source). -/
lemma getValInterpolated_err (g : Grid) (rf cf : ℚ)
    (h : rf > (g.rows : ℚ) - 1 ∨ rf < 0 ∨ cf > (g.cols : ℚ) - 1 ∨ cf < 0) :
    getValInterpolated g rf cf = Except.error () := by
  rw [getValInterpolated, if_pos h]

/-- At a coordinate that is a whole number the floor/ceil weights collapse. -/
lemma bilinearBlend_natCast (g : Grid) (m n : ℕ) :
    bilinearBlend g (m : ℚ) (n : ℚ) = g.val m n := by
  unfold bilinearBlend
  rw [Int.floor_natCast, Int.ceil_natCast, Int.floor_natCast, Int.ceil_natCast]
  simp only [Int.toNat_natCast, sub_self]
  rw [vadd_vscale_same, vadd_vscale_same]

/-- C4: for every field and every in-range fractional query, the scalar
interpolator returns the blend of the four floor/ceil neighbour samples with
column weight c_alpha = ceil c - c on the previous-column sample (1 - c_alpha
on the next) and row weight r_alpha = ceil r - r likewise; at integer
coordinates the result is exactly the stored pixel value. -/
theorem C4_interpolation_weights (g : Grid) (rf cf : ℚ)
    (hr0 : 0 ≤ rf) (hr1 : rf ≤ (g.rows : ℚ) - 1)
    (hc0 : 0 ≤ cf) (hc1 : cf ≤ (g.cols : ℚ) - 1) :
    getValInterpolated g rf cf = Except.ok (bilinearBlend g rf cf) ∧
      (∀ m n : ℕ, rf = (m : ℚ) → cf = (n : ℚ) → bilinearBlend g rf cf = g.val m n) := by
  refine ⟨getValInterpolated_ok g rf cf hr0 hr1 hc0 hc1, ?_⟩
  intro m n hm hn
  rw [hm, hn, bilinearBlend_natCast]

/-- Small concrete 3 x 4 two-channel field used to instantiate theorems. -/
def sampleGrid : Grid :=
  { rows := 3
    cols := 4
    channels := 2
    val := fun r c => [(r : ℚ) + 2 * c, (r : ℚ) * c - 1] }

/-- Witness for C4 at the concrete in-range query (1, 2) of sampleGrid. -/
theorem C4_interpolation_weights_witness :
    getValInterpolated sampleGrid 1 2 = Except.ok (bilinearBlend sampleGrid 1 2) ∧
      bilinearBlend sampleGrid 1 2 = sampleGrid.val 1 2 := by
  have h := C4_interpolation_weights sampleGrid 1 2 (by norm_num)
    (by norm_num [sampleGrid]) (by norm_num) (by norm_num [sampleGrid])
  exact ⟨h.1, by
    have h2 := h.2 1 2 (by norm_num) (by norm_num)
    exact h2⟩

/-- Clamp an integer into the interval between lo and hi, with the upper
bound applied last, exactly like np.clip. -/
def clipZ (x lo hi : ℤ) : ℤ := min (max x lo) hi

/-- Out-of-range predicate of the claims: the query row is below 0 or above
rows - 1, or the column is below 0 or above cols - 1. -/
def outOfRange (g : Grid) (r c : ℚ) : Prop :=
  r < 0 ∨ r > (g.rows : ℚ) - 1 ∨ c < 0 ∨ c > (g.cols : ℚ) - 1

instance outOfRange.instDecidable (g : Grid) (r c : ℚ) : Decidable (outOfRange g r c) := by
  unfold outOfRange
  infer_instance

/-- Per-entry invalid flag of flow_util.get_val_interpolated_vec
(lines 71-74): the four masked assignments amount to this disjunction. -/
def invalidFlag (g : Grid) (q : ℚ × ℚ) : ℕ :=
  if q.1 > (g.rows : ℚ) - 1 ∨ q.1 < 0 ∨ q.2 > (g.cols : ℚ) - 1 ∨ q.2 < 0 then 1 else 0

/-- Per-entry value of flow_util.get_val_interpolated_vec before the fill
overwrite (lines 79-90): floor/ceil indices clipped into range with np.clip,
alpha weights computed from the clipped indices. -/
def vecEntryRaw (g : Grid) (q : ℚ × ℚ) : Vec :=
  let rp := clipZ ⌊q.1⌋ 0 ((g.rows : ℤ) - 1)
  let rn := clipZ ⌈q.1⌉ 0 ((g.rows : ℤ) - 1)
  let cp := clipZ ⌊q.2⌋ 0 ((g.cols : ℤ) - 1)
  let cn := clipZ ⌈q.2⌉ 0 ((g.cols : ℤ) - 1)
  let ralpha : ℚ := (rn : ℚ) - q.1
  let calpha : ℚ := (cn : ℚ) - q.2
  let valPrev := vadd (vscale (g.val rp.toNat cp.toNat) calpha)
                      (vscale (g.val rp.toNat cn.toNat) (1 - calpha))
  let valNext := vadd (vscale (g.val rn.toNat cp.toNat) calpha)
                      (vscale (g.val rn.toNat cn.toNat) (1 - calpha))
  vadd (vscale valPrev ralpha) (vscale valNext (1 - ralpha))

/-- Embeds flow_util.get_val_interpolated_vec (lines 50-94) on a flat list of
(row, col) queries: the returned pair is the value list (entries flagged
invalid overwritten with fill_val in every channel) and the invalid flags. -/
def getValInterpolatedVec (g : Grid) (qs : List (ℚ × ℚ)) (fillVal : ℚ) :
    List Vec × List ℕ :=
  let invalid := qs.map (invalidFlag g)
  let vals := qs.map (vecEntryRaw g)
  (List.zipWith (fun v inv => if inv > 0 then List.replicate g.channels fillVal else v)
    vals invalid, invalid)

lemma clipZ_eq_self (x lo hi : ℤ) (h1 : lo ≤ x) (h2 : x ≤ hi) : clipZ x lo hi = x := by
  unfold clipZ
  rw [max_eq_left h1, min_eq_left h2]

lemma floor_natCast_sub_one (n : ℕ) : ⌊(n : ℚ) - 1⌋ = (n : ℤ) - 1 := by
  rw [show (n : ℚ) - 1 = (((n : ℤ) - 1 : ℤ) : ℚ) by push_cast; ring, Int.floor_intCast]

lemma invalidFlag_eq_outOfRange (g : Grid) (q : ℚ × ℚ) :
    invalidFlag g q = if outOfRange g q.1 q.2 then 1 else 0 := by
  unfold invalidFlag outOfRange
  by_cases h1 : q.1 > (g.rows : ℚ) - 1 ∨ q.1 < 0 ∨ q.2 > (g.cols : ℚ) - 1 ∨ q.2 < 0
  · rw [if_pos h1, if_pos (by tauto)]
  · rw [if_neg h1, if_neg (by tauto)]

/-- On an in-range query the clipped-index entry of the vectorized
interpolator agrees with the specification-side bilinear blend. -/
lemma vecEntryRaw_eq_blend (g : Grid) (q : ℚ × ℚ)
    (hr0 : 0 ≤ q.1) (hr1 : q.1 ≤ (g.rows : ℚ) - 1)
    (hc0 : 0 ≤ q.2) (hc1 : q.2 ≤ (g.cols : ℚ) - 1) :
    vecEntryRaw g q = bilinearBlend g q.1 q.2 := by
  have hfr : clipZ ⌊q.1⌋ 0 ((g.rows : ℤ) - 1) = ⌊q.1⌋ :=
    clipZ_eq_self _ _ _ (Int.floor_nonneg.mpr hr0)
      (by rw [← floor_natCast_sub_one]; exact Int.floor_mono hr1)
  have hcr : clipZ ⌈q.1⌉ 0 ((g.rows : ℤ) - 1) = ⌈q.1⌉ :=
    clipZ_eq_self _ _ _ (Int.ceil_nonneg hr0)
      (by rw [Int.ceil_le]; push_cast; exact hr1)
  have hfc : clipZ ⌊q.2⌋ 0 ((g.cols : ℤ) - 1) = ⌊q.2⌋ :=
    clipZ_eq_self _ _ _ (Int.floor_nonneg.mpr hc0)
      (by rw [← floor_natCast_sub_one]; exact Int.floor_mono hc1)
  have hcc : clipZ ⌈q.2⌉ 0 ((g.cols : ℤ) - 1) = ⌈q.2⌉ :=
    clipZ_eq_self _ _ _ (Int.ceil_nonneg hc0)
      (by rw [Int.ceil_le]; push_cast; exact hc1)
  unfold vecEntryRaw bilinearBlend
  rw [hfr, hcr, hfc, hcc]

/-- Scalar interpolation as a single if-expression over the out-of-range
predicate of the claims. -/
lemma getValInterpolated_eq_ite (g : Grid) (r c : ℚ) :
    getValInterpolated g r c =
      (if outOfRange g r c then Except.error () else Except.ok (bilinearBlend g r c)) := by
  by_cases h : outOfRange g r c
  · rw [if_pos h]
    exact getValInterpolated_err g r c (by unfold outOfRange at h; tauto)
  · rw [if_neg h]
    unfold outOfRange at h
    push_neg at h
    exact getValInterpolated_ok g r c h.1 h.2.1 h.2.2.1 h.2.2.2

/-- Value entry of the vectorized interpolator at index i, as a single
if-expression: fill value on invalid entries, bilinear blend otherwise. -/
lemma getValInterpolatedVec_getD (g : Grid) (qs : List (ℚ × ℚ)) (fill : ℚ) (i : ℕ)
    (hi : i < qs.length) :
    (getValInterpolatedVec g qs fill).2.getD i 0 =
        (if outOfRange g (qs.getD i (0, 0)).1 (qs.getD i (0, 0)).2 then 1 else 0) ∧
      (getValInterpolatedVec g qs fill).1.getD i [] =
        (if outOfRange g (qs.getD i (0, 0)).1 (qs.getD i (0, 0)).2 then
          List.replicate g.channels fill
        else vecEntryRaw g (qs.getD i (0, 0))) := by
  have hmapinv : i < (qs.map (invalidFlag g)).length := by
    rw [List.length_map]; exact hi
  have hmapval : i < (qs.map (vecEntryRaw g)).length := by
    rw [List.length_map]; exact hi
  have hzip : i < (List.zipWith
      (fun v inv => if inv > 0 then List.replicate g.channels fill else v)
      (qs.map (vecEntryRaw g)) (qs.map (invalidFlag g))).length := by
    rw [List.length_zipWith, List.length_map, List.length_map]
    exact lt_min hi hi
  have hinv : (qs.map (invalidFlag g)).getD i 0 = invalidFlag g (qs.getD i (0, 0)) := by
    rw [List.getD_eq_getElem _ _ hmapinv, List.getD_eq_getElem _ _ hi, List.getElem_map]
  constructor
  · show (qs.map (invalidFlag g)).getD i 0 = _
    rw [hinv, invalidFlag_eq_outOfRange]
  · show (List.zipWith _ (qs.map (vecEntryRaw g)) (qs.map (invalidFlag g))).getD i [] = _
    rw [List.getD_eq_getElem _ _ hzip, List.getElem_zipWith, List.getElem_map,
      List.getElem_map, ← List.getD_eq_getElem qs (0, 0) hi, invalidFlag_eq_outOfRange]
    by_cases h : outOfRange g (qs.getD i (0, 0)).1 (qs.getD i (0, 0)).2
    · rw [if_pos h, if_pos (by norm_num), if_pos h]
    · rw [if_neg h, if_neg (by norm_num), if_neg h]

/-- C7: the scalar interpolator raises exactly on queries with row below 0 or
above rows - 1 or column below 0 or above cols - 1 (and returns the bilinear
blend otherwise), while on the same entrywise condition the vectorized form
never raises: it flags exactly the out-of-range entries with 1 in the invalid
mask, writes the fill value in every channel of those entries, and gives every
in-range entry the same bilinear blend value the scalar form returns. -/
theorem C7_out_of_range_policy (g : Grid) (qs : List (ℚ × ℚ)) (fill : ℚ) (i : ℕ)
    (hi : i < qs.length) (q : ℚ × ℚ) (hq : qs.getD i (0, 0) = q) :
    getValInterpolated g q.1 q.2 =
        (if outOfRange g q.1 q.2 then Except.error () else Except.ok (bilinearBlend g q.1 q.2)) ∧
      (getValInterpolatedVec g qs fill).2.getD i 0 =
        (if outOfRange g q.1 q.2 then 1 else 0) ∧
      (getValInterpolatedVec g qs fill).1.getD i [] =
        (if outOfRange g q.1 q.2 then List.replicate g.channels fill
         else bilinearBlend g q.1 q.2) := by
  obtain ⟨h1, h2⟩ := getValInterpolatedVec_getD g qs fill i hi
  rw [hq] at h1 h2
  refine ⟨getValInterpolated_eq_ite g q.1 q.2, h1, ?_⟩
  rw [h2]
  by_cases h : outOfRange g q.1 q.2
  · rw [if_pos h, if_pos h]
  · rw [if_neg h, if_neg h]
    unfold outOfRange at h
    push_neg at h
    exact vecEntryRaw_eq_blend g q h.1 h.2.1 h.2.2.1 h.2.2.2

/-- Witness for C7 on sampleGrid with one in-range and one out-of-range query,
instantiated at the out-of-range entry. -/
theorem C7_out_of_range_policy_witness :
    getValInterpolated sampleGrid (5 : ℚ) (0 : ℚ) =
        (if outOfRange sampleGrid 5 0 then Except.error ()
         else Except.ok (bilinearBlend sampleGrid 5 0)) ∧
      (getValInterpolatedVec sampleGrid [((1 : ℚ) / 2, 2), (5, 0)] 7).2.getD 1 0 =
        (if outOfRange sampleGrid 5 0 then 1 else 0) ∧
      (getValInterpolatedVec sampleGrid [((1 : ℚ) / 2, 2), (5, 0)] 7).1.getD 1 [] =
        (if outOfRange sampleGrid 5 0 then List.replicate sampleGrid.channels 7
         else bilinearBlend sampleGrid 5 0) :=
  C7_out_of_range_policy sampleGrid [((1 : ℚ) / 2, 2), (5, 0)] 7 1 (by norm_num) (5, 0) rfl

/-- Sum of squared channels of a pixel value; np.linalg.norm is the square
root of this quantity. -/
def normSq (v : Vec) : ℚ := (v.map (fun x => x * x)).sum

/-- Exact rational form of the float comparison np.linalg.norm(v) > t of the
occlusion detectors: a nonnegative square root exceeds t exactly when t is
negative or t * t is below the sum of squares. -/
def normGtThreshold (v : Vec) (t : ℚ) : Prop := t < 0 ∨ t * t < normSq v

instance normGtThreshold.instDecidable (v : Vec) (t : ℚ) : Decidable (normGtThreshold v t) := by
  unfold normGtThreshold
  infer_instance

/-- Default value of the pixel_threshold parameter of get_occlusions and
get_occlusions_vec in flow_util.py. -/
def defaultPixelThreshold : ℚ := 1 / 100

lemma normSq_nonneg (v : Vec) : 0 ≤ normSq v := by
  unfold normSq
  apply List.sum_nonneg
  intro x hx
  rw [List.mem_map] at hx
  obtain ⟨y, _, rfl⟩ := hx
  exact mul_self_nonneg y

/-- The rational comparison agrees with the real Euclidean norm comparison
in the claims. -/
lemma normGtThreshold_iff_sqrt (v : Vec) (t : ℚ) :
    normGtThreshold v t ↔ (t : ℝ) < Real.sqrt ((normSq v : ℚ) : ℝ) := by
  unfold normGtThreshold
  by_cases ht : t < 0
  · have hlt : (t : ℝ) < Real.sqrt ((normSq v : ℚ) : ℝ) :=
      lt_of_lt_of_le (by exact_mod_cast ht) (Real.sqrt_nonneg _)
    exact ⟨fun _ => hlt, fun _ => Or.inl ht⟩
  · push_neg at ht
    rw [Real.lt_sqrt (by exact_mod_cast ht)]
    have hsq : ((t : ℝ)) ^ 2 = ((t * t : ℚ) : ℝ) := by
      push_cast
      ring
    rw [hsq]
    constructor
    · rintro (h | h)
      · exact absurd h (not_lt.mpr ht)
      · exact_mod_cast h
    · intro h
      right
      exact_mod_cast h

/-- Embeds the loop body of flow_util.get_occlusions (lines 129-146) for one
pixel (r, c) of frame 0: out-of-bounds destinations (checked against the
forward-flow shape) are occluded, otherwise the back flow is bilinearly
sampled at the destination and the norm of the flow sum is thresholded. -/
def getOcclusionsPix (ff bf : Grid) (t : ℚ) (r c : ℕ) : Except Unit ℕ :=
  if (r : ℚ) + (ff.val r c).getD 1 0 > (ff.rows : ℚ) - 1 ∨
      (r : ℚ) + (ff.val r c).getD 1 0 < 0 ∨
      (c : ℚ) + (ff.val r c).getD 0 0 > (ff.cols : ℚ) - 1 ∨
      (c : ℚ) + (ff.val r c).getD 0 0 < 0 then
    Except.ok 255
  else
    match getValInterpolated bf ((r : ℚ) + (ff.val r c).getD 1 0)
        ((c : ℚ) + (ff.val r c).getD 0 0) with
    | Except.error e => Except.error e
    | Except.ok bv =>
        if normGtThreshold (vadd (ff.val r c) bv) t then Except.ok 255 else Except.ok 0

/-- Row-major list of the (row, col) index pairs of a grid, i.e. np.indices
of the grid shape flattened the way numpy reshape flattens it. -/
def gridPixels (g : Grid) : List (ℕ × ℕ) :=
  (List.range g.rows).flatMap (fun r => (List.range g.cols).map (fun c => (r, c)))

/-- Destination coordinates b_idx of flow_util.get_occlusions_vec
(lines 105-108), flattened row-major: row plus the y channel, column plus
the x channel of the forward flow. -/
def gridQueries (ff : Grid) : List (ℚ × ℚ) :=
  (gridPixels ff).map (fun p =>
    ((p.1 : ℚ) + (ff.val p.1 p.2).getD 1 0, (p.2 : ℚ) + (ff.val p.1 p.2).getD 0 0))

/-- Embeds flow_util.get_occlusions_vec (lines 97-115) as the row-major list
of mask entries: 255 where the interpolation flagged the destination invalid
or where the norm of forward plus sampled back flow exceeds the threshold. -/
def getOcclusionsVec (ff bf : Grid) (t : ℚ) : List ℕ :=
  (List.range (ff.rows * ff.cols)).map (fun i =>
    if (getValInterpolatedVec bf (gridQueries ff) 0).2.getD i 0 > 0 ∨
        normGtThreshold
          (vadd (((gridPixels ff).map (fun p => ff.val p.1 p.2)).getD i [])
            ((getValInterpolatedVec bf (gridQueries ff) 0).1.getD i []))
          t
    then 255 else 0)

lemma length_flatMap_const {α : Type} (f : ℕ → List α) (k : ℕ) (l : List ℕ)
    (hlen : ∀ i, (f i).length = k) : (l.flatMap f).length = l.length * k := by
  induction l with
  | nil => simp
  | cons a tl ih =>
      rw [List.flatMap_cons, List.length_append, hlen, ih, List.length_cons]
      ring

lemma flatMap_range_getD {α : Type} (f : ℕ → List α) (k : ℕ) (d : α)
    (hlen : ∀ i, (f i).length = k) :
    ∀ n r c, r < n → c < k → ((List.range n).flatMap f).getD (r * k + c) d = (f r).getD c d := by
  intro n
  induction n with
  | zero => intro r c hr _; exact absurd hr (Nat.not_lt_zero r)
  | succ n ih =>
      intro r c hr hc
      have hlenA : ((List.range n).flatMap f).length = n * k := by
        rw [length_flatMap_const f k _ hlen, List.length_range]
      rw [List.range_succ, List.flatMap_append]
      by_cases hrn : r < n
      · have hlt : r * k + c < ((List.range n).flatMap f).length := by
          rw [hlenA]
          have h2 : (r + 1) * k ≤ n * k := mul_le_mul_right' (by omega) k
          have h3 : (r + 1) * k = r * k + k := by ring
          omega
        rw [List.getD_append _ _ _ _ hlt]
        exact ih r c hrn hc
      · have hre : r = n := by omega
        rw [hre, List.getD_append_right _ _ _ _ (by rw [hlenA]; omega), hlenA]
        have hsub : n * k + c - n * k = c := by omega
        rw [hsub, List.flatMap_cons, List.flatMap_nil, List.append_nil]

lemma map_range_getD {α : Type} (f : ℕ → α) (n i : ℕ) (d : α) (hi : i < n) :
    ((List.range n).map f).getD i d = f i := by
  have h1 : i < ((List.range n).map f).length := by simpa using hi
  rw [List.getD_eq_getElem _ _ h1]
  simp

lemma getD_map_of_lt {α β : Type} (f : α → β) (l : List α) (i : ℕ) (d : α) (d2 : β)
    (hi : i < l.length) : (l.map f).getD i d2 = f (l.getD i d) := by
  rw [List.getD_eq_getElem _ _ (by simpa using hi), List.getD_eq_getElem _ _ hi,
    List.getElem_map]

lemma gridPixels_length (g : Grid) : (gridPixels g).length = g.rows * g.cols := by
  unfold gridPixels
  rw [length_flatMap_const _ g.cols _ (fun i => by simp), List.length_range]

lemma gridPixels_getD (g : Grid) (r c : ℕ) (hr : r < g.rows) (hc : c < g.cols) (d : ℕ × ℕ) :
    (gridPixels g).getD (r * g.cols + c) d = (r, c) := by
  unfold gridPixels
  rw [flatMap_range_getD _ g.cols d (fun i => by simp) g.rows r c hr hc,
    map_range_getD _ _ _ _ hc]

/-- Normal form of the scalar occlusion test at one pixel, assuming forward
and back flow share their spatial shape. -/
lemma getOcclusionsPix_eq (ff bf : Grid) (t : ℚ) (r c : ℕ)
    (hrows : bf.rows = ff.rows) (hcols : bf.cols = ff.cols) :
    getOcclusionsPix ff bf t r c =
      (if outOfRange ff ((r : ℚ) + (ff.val r c).getD 1 0) ((c : ℚ) + (ff.val r c).getD 0 0)
       then Except.ok 255
       else if normGtThreshold (vadd (ff.val r c)
          (bilinearBlend bf ((r : ℚ) + (ff.val r c).getD 1 0)
            ((c : ℚ) + (ff.val r c).getD 0 0))) t
         then Except.ok 255 else Except.ok 0) := by
  unfold getOcclusionsPix
  by_cases hoob : outOfRange ff ((r : ℚ) + (ff.val r c).getD 1 0)
      ((c : ℚ) + (ff.val r c).getD 0 0)
  · rw [if_pos (show _ ∨ _ ∨ _ ∨ _ by unfold outOfRange at hoob; tauto), if_pos hoob]
  · have hsrc : ¬((r : ℚ) + (ff.val r c).getD 1 0 > (ff.rows : ℚ) - 1 ∨
        (r : ℚ) + (ff.val r c).getD 1 0 < 0 ∨
        (c : ℚ) + (ff.val r c).getD 0 0 > (ff.cols : ℚ) - 1 ∨
        (c : ℚ) + (ff.val r c).getD 0 0 < 0) := by
      unfold outOfRange at hoob
      tauto
    have hin : ¬outOfRange bf ((r : ℚ) + (ff.val r c).getD 1 0)
        ((c : ℚ) + (ff.val r c).getD 0 0) := by
      unfold outOfRange at hoob ⊢
      rw [hrows, hcols]
      exact hoob
    rw [if_neg hsrc, if_neg hoob, getValInterpolated_eq_ite, if_neg hin]

/-- Entry (r, c) of the vectorized occlusion mask, in the same normal form as
the scalar test. -/
lemma getOcclusionsVec_getD (ff bf : Grid) (t : ℚ) (r c : ℕ)
    (hrows : bf.rows = ff.rows) (hcols : bf.cols = ff.cols)
    (hr : r < ff.rows) (hc : c < ff.cols) :
    (getOcclusionsVec ff bf t).getD (r * ff.cols + c) 0 =
      (if outOfRange ff ((r : ℚ) + (ff.val r c).getD 1 0) ((c : ℚ) + (ff.val r c).getD 0 0)
       then 255
       else if normGtThreshold (vadd (ff.val r c)
          (bilinearBlend bf ((r : ℚ) + (ff.val r c).getD 1 0)
            ((c : ℚ) + (ff.val r c).getD 0 0))) t
         then 255 else 0) := by
  have hi : r * ff.cols + c < ff.rows * ff.cols := by
    have h2 : (r + 1) * ff.cols ≤ ff.rows * ff.cols := mul_le_mul_right' (by omega) ff.cols
    have h3 : (r + 1) * ff.cols = r * ff.cols + ff.cols := by ring
    omega
  have hqlen : (gridQueries ff).length = ff.rows * ff.cols := by
    unfold gridQueries
    rw [List.length_map, gridPixels_length]
  have hq : (gridQueries ff).getD (r * ff.cols + c) (0, 0) =
      ((r : ℚ) + (ff.val r c).getD 1 0, (c : ℚ) + (ff.val r c).getD 0 0) := by
    unfold gridQueries
    rw [getD_map_of_lt _ _ _ (0, 0) (0, 0) (by rw [gridPixels_length]; exact hi),
      gridPixels_getD ff r c hr hc]
  have hfv : ((gridPixels ff).map (fun p => ff.val p.1 p.2)).getD (r * ff.cols + c) []
      = ff.val r c := by
    rw [getD_map_of_lt _ _ _ (0, 0) [] (by rw [gridPixels_length]; exact hi),
      gridPixels_getD ff r c hr hc]
  obtain ⟨hinv, hval⟩ := getValInterpolatedVec_getD bf (gridQueries ff) 0
    (r * ff.cols + c) (by rw [hqlen]; exact hi)
  rw [hq] at hinv hval
  dsimp only at hinv hval
  unfold getOcclusionsVec
  rw [map_range_getD _ _ _ _ hi, hinv, hval, hfv]
  have hoobiff : outOfRange bf ((r : ℚ) + (ff.val r c).getD 1 0)
      ((c : ℚ) + (ff.val r c).getD 0 0) ↔
      outOfRange ff ((r : ℚ) + (ff.val r c).getD 1 0) ((c : ℚ) + (ff.val r c).getD 0 0) := by
    unfold outOfRange
    rw [hrows, hcols]
  by_cases hoob : outOfRange ff ((r : ℚ) + (ff.val r c).getD 1 0)
      ((c : ℚ) + (ff.val r c).getD 0 0)
  · rw [if_pos (hoobiff.mpr hoob), if_pos (hoobiff.mpr hoob), if_pos hoob,
      if_pos (Or.inl Nat.one_pos)]
  · have hnb : ¬outOfRange bf ((r : ℚ) + (ff.val r c).getD 1 0)
        ((c : ℚ) + (ff.val r c).getD 0 0) := fun hcon => hoob (hoobiff.mp hcon)
    rw [if_neg hnb, if_neg hnb, if_neg hoob]
    have hbounds := hnb
    unfold outOfRange at hbounds
    push_neg at hbounds
    have hblend : vecEntryRaw bf ((r : ℚ) + (ff.val r c).getD 1 0,
        (c : ℚ) + (ff.val r c).getD 0 0) =
        bilinearBlend bf ((r : ℚ) + (ff.val r c).getD 1 0)
          ((c : ℚ) + (ff.val r c).getD 0 0) :=
      vecEntryRaw_eq_blend bf _ hbounds.1 hbounds.2.1 hbounds.2.2.1 hbounds.2.2.2
    rw [hblend]
    have hiff : ((0 : ℕ) > 0 ∨ normGtThreshold (vadd (ff.val r c)
        (bilinearBlend bf ((r : ℚ) + (ff.val r c).getD 1 0)
          ((c : ℚ) + (ff.val r c).getD 0 0))) t) ↔
        normGtThreshold (vadd (ff.val r c)
          (bilinearBlend bf ((r : ℚ) + (ff.val r c).getD 1 0)
            ((c : ℚ) + (ff.val r c).getD 0 0))) t := by
      simp
    rw [if_congr hiff rfl rfl]

/-- C2: with forward and back flow of the same shape, the scalar occlusion
detector marks pixel (r, c) with 255 exactly when the destination
(r + forward y, c + forward x) leaves the valid coordinate box or the
Euclidean norm of the forward flow plus the back flow bilinearly sampled at
that destination exceeds the threshold; every other pixel gets 0, and the
default threshold is 0.01. -/
theorem C2_occlusion_rule (ff bf : Grid) (t : ℚ) (r c : ℕ)
    (hrows : bf.rows = ff.rows) (hcols : bf.cols = ff.cols)
    (hr : r < ff.rows) (hc : c < ff.cols) :
    (getOcclusionsPix ff bf t r c = Except.ok 255 ∨
        getOcclusionsPix ff bf t r c = Except.ok 0) ∧
      (getOcclusionsPix ff bf t r c = Except.ok 255 ↔
        (outOfRange ff ((r : ℚ) + (ff.val r c).getD 1 0) ((c : ℚ) + (ff.val r c).getD 0 0) ∨
          (t : ℝ) < Real.sqrt ((normSq (vadd (ff.val r c)
            (bilinearBlend bf ((r : ℚ) + (ff.val r c).getD 1 0)
              ((c : ℚ) + (ff.val r c).getD 0 0))) : ℚ) : ℝ))) ∧
      defaultPixelThreshold = 1 / 100 := by
  rw [getOcclusionsPix_eq ff bf t r c hrows hcols]
  refine ⟨?_, ?_, rfl⟩
  · by_cases hoob : outOfRange ff ((r : ℚ) + (ff.val r c).getD 1 0)
        ((c : ℚ) + (ff.val r c).getD 0 0)
    · left
      rw [if_pos hoob]
    · rw [if_neg hoob]
      by_cases hngt : normGtThreshold (vadd (ff.val r c)
          (bilinearBlend bf ((r : ℚ) + (ff.val r c).getD 1 0)
            ((c : ℚ) + (ff.val r c).getD 0 0))) t
      · left
        rw [if_pos hngt]
      · right
        rw [if_neg hngt]
  · by_cases hoob : outOfRange ff ((r : ℚ) + (ff.val r c).getD 1 0)
        ((c : ℚ) + (ff.val r c).getD 0 0)
    · rw [if_pos hoob]
      exact ⟨fun _ => Or.inl hoob, fun _ => rfl⟩
    · rw [if_neg hoob]
      by_cases hngt : normGtThreshold (vadd (ff.val r c)
          (bilinearBlend bf ((r : ℚ) + (ff.val r c).getD 1 0)
            ((c : ℚ) + (ff.val r c).getD 0 0))) t
      · rw [if_pos hngt]
        exact ⟨fun _ => Or.inr ((normGtThreshold_iff_sqrt _ _).mp hngt), fun _ => rfl⟩
      · rw [if_neg hngt]
        constructor
        · intro h
          exact absurd h (by simp)
        · rintro (h | h)
          · exact absurd h hoob
          · exact absurd ((normGtThreshold_iff_sqrt _ _).mpr h) hngt

/-- C3: for same-shaped inputs the fully vectorized occlusion detector
produces, at every pixel, exactly the value the scalar per-pixel detector
computes with the same threshold. -/
theorem C3_vec_equals_scalar (ff bf : Grid) (t : ℚ) (r c : ℕ)
    (hrows : bf.rows = ff.rows) (hcols : bf.cols = ff.cols)
    (hr : r < ff.rows) (hc : c < ff.cols) :
    getOcclusionsPix ff bf t r c =
      Except.ok ((getOcclusionsVec ff bf t).getD (r * ff.cols + c) 0) := by
  rw [getOcclusionsPix_eq ff bf t r c hrows hcols,
    getOcclusionsVec_getD ff bf t r c hrows hcols hr hc]
  by_cases hoob : outOfRange ff ((r : ℚ) + (ff.val r c).getD 1 0)
      ((c : ℚ) + (ff.val r c).getD 0 0)
  · rw [if_pos hoob, if_pos hoob]
  · rw [if_neg hoob, if_neg hoob]
    by_cases hngt : normGtThreshold (vadd (ff.val r c)
        (bilinearBlend bf ((r : ℚ) + (ff.val r c).getD 1 0)
          ((c : ℚ) + (ff.val r c).getD 0 0))) t
    · rw [if_pos hngt, if_pos hngt]
    · rw [if_neg hngt, if_neg hngt]

/-- Forward flow of the worked 4 x 4 occlusion example in the repository's
flow_util test: a 2 x 2 block moving right 2 and up 1 pixel. -/
def occFlowF : Grid :=
  { rows := 4
    cols := 4
    channels := 2
    val := fun r c =>
      if (r = 1 ∨ r = 2) ∧ (c = 0 ∨ c = 1) then [2, -1] else [0, 0] }

/-- Back flow of the same worked example: the destination block moving back. -/
def occFlowB : Grid :=
  { rows := 4
    cols := 4
    channels := 2
    val := fun r c =>
      if (r = 0 ∨ r = 1) ∧ (c = 2 ∨ c = 3) then [-2, 1] else [0, 0] }

/-- Witness for C2 at pixel (1, 0) of the worked example, with the default
threshold. -/
theorem C2_occlusion_rule_witness :
    (getOcclusionsPix occFlowF occFlowB defaultPixelThreshold 1 0 = Except.ok 255 ∨
        getOcclusionsPix occFlowF occFlowB defaultPixelThreshold 1 0 = Except.ok 0) ∧
      (getOcclusionsPix occFlowF occFlowB defaultPixelThreshold 1 0 = Except.ok 255 ↔
        (outOfRange occFlowF ((1 : ℚ) + (occFlowF.val 1 0).getD 1 0)
            ((0 : ℚ) + (occFlowF.val 1 0).getD 0 0) ∨
          ((defaultPixelThreshold : ℝ) < Real.sqrt ((normSq (vadd (occFlowF.val 1 0)
            (bilinearBlend occFlowB ((1 : ℚ) + (occFlowF.val 1 0).getD 1 0)
              ((0 : ℚ) + (occFlowF.val 1 0).getD 0 0))) : ℚ) : ℝ)))) ∧
      defaultPixelThreshold = 1 / 100 :=
  C2_occlusion_rule occFlowF occFlowB defaultPixelThreshold 1 0 rfl rfl
    (by norm_num [occFlowF]) (by norm_num [occFlowF])

/-- Witness for C3 at pixel (0, 2) of the worked example. -/
theorem C3_vec_equals_scalar_witness :
    getOcclusionsPix occFlowF occFlowB (1 / 100) 0 2 =
      Except.ok ((getOcclusionsVec occFlowF occFlowB (1 / 100)).getD
        (0 * occFlowF.cols + 2) 0) :=
  C3_vec_equals_scalar occFlowF occFlowB (1 / 100) 0 2 rfl rfl
    (by norm_num [occFlowF]) (by norm_num [occFlowF])

/-- Embeds np.allclose(a, b, atol) as used by cross_check_sanity: shapes must
agree and every channel must satisfy the numpy closeness bound
abs(a - b) <= atol + rtol * abs(b) with the default rtol of 1e-05. -/
def allcloseB (a b : Vec) (atol : ℚ) : Bool :=
  a.length == b.length &&
    (List.zip a b).all (fun p => decide (|p.1 - p.2| ≤ atol + (1 / 100000) * |p.2|))

/-- Embeds the rounding applied by python round (and numpy scalar rounding)
inside cross_check_sanity: round half to even. -/
def roundHalfEven (q : ℚ) : ℤ :=
  if Int.fract q < 1 / 2 then ⌊q⌋
  else if 1 / 2 < Int.fract q then ⌊q⌋ + 1
  else if ⌊q⌋ % 2 = 0 then ⌊q⌋ else ⌊q⌋ + 1

/-- Absolute tolerance for object-id comparison in cross_check_sanity
(lines 167-172): 1 for uint8 id images, 0.01 otherwise. -/
def idsAtolOf (idsU8 : Bool) : ℚ := if idsU8 then 1 else 1 / 100

/-- Absolute tolerance for correspondence comparison in cross_check_sanity
(lines 168-177): 4 for uint8 correspondence images, 0.016 otherwise. -/
def corrAtolOf (corrU8 : Bool) : ℚ := if corrU8 then 4 else 2 / 125

/-- Embeds the all_agree computation of flow_util.cross_check_sanity
(lines 182-204): destination in bounds of the flow shape, then object-id
colors compared at the rounded destination, then correspondence colors
compared at the bilinearly interpolated destination; the comparisons are
short-circuited exactly as in the source. -/
def crossCheckAgree (flow0 ids0 ids1 corresp0 corresp1 : Grid)
    (idsU8 corrU8 : Bool) (row0 col0 : ℕ) : Except Unit Bool :=
  if 0 ≤ (row0 : ℚ) + (flow0.val row0 col0).getD 1 0 ∧
      0 ≤ (col0 : ℚ) + (flow0.val row0 col0).getD 0 0 ∧
      (row0 : ℚ) + (flow0.val row0 col0).getD 1 0 ≤ (flow0.rows : ℚ) - 1 ∧
      (col0 : ℚ) + (flow0.val row0 col0).getD 0 0 ≤ (flow0.cols : ℚ) - 1 then
    if allcloseB (ids0.val row0 col0)
        (ids1.val (roundHalfEven ((row0 : ℚ) + (flow0.val row0 col0).getD 1 0)).toNat
          (roundHalfEven ((col0 : ℚ) + (flow0.val row0 col0).getD 0 0)).toNat)
        (idsAtolOf idsU8) then
      match getValInterpolated corresp1 ((row0 : ℚ) + (flow0.val row0 col0).getD 1 0)
          ((col0 : ℚ) + (flow0.val row0 col0).getD 0 0) with
      | Except.error e => Except.error e
      | Except.ok corrcolor1 =>
          Except.ok (allcloseB (corresp0.val row0 col0) corrcolor1 (corrAtolOf corrU8))
    else Except.ok false
  else Except.ok false

/-- Embeds flow_util.cross_check_sanity (lines 150-234) with the default
output mode: the returned boolean is
(all_agree and not is_occluded) or (not all_agree and is_occluded), where
is_occluded is the occlusion mask at (row0, col0) thresholded at 200. -/
def crossCheckSanity (flow0 ids0 ids1 corresp0 corresp1 : Grid) (occ0 : ℕ → ℕ → ℕ)
    (idsU8 corrU8 : Bool) (row0 col0 : ℕ) : Except Unit Bool :=
  (crossCheckAgree flow0 ids0 ids1 corresp0 corresp1 idsU8 corrU8 row0 col0).map
    (fun allAgree => (allAgree && !(decide (200 < occ0 row0 col0))) ||
      (!allAgree && decide (200 < occ0 row0 col0)))

lemma exceptMap_ok {α β : Type} (f : α → β) (a : α) :
    (Except.ok a : Except Unit α).map f = Except.ok (f a) := rfl

/-- Normal form of the agreement computation when the correspondence image
has the shape of the flow: no interpolation error can occur, and the result
collapses to nested conditionals. -/
lemma crossCheckAgree_eq (flow0 ids0 ids1 corresp0 corresp1 : Grid)
    (idsU8 corrU8 : Bool) (row0 col0 : ℕ)
    (hrows : corresp1.rows = flow0.rows) (hcols : corresp1.cols = flow0.cols) :
    crossCheckAgree flow0 ids0 ids1 corresp0 corresp1 idsU8 corrU8 row0 col0 =
      Except.ok
        (if 0 ≤ (row0 : ℚ) + (flow0.val row0 col0).getD 1 0 ∧
            0 ≤ (col0 : ℚ) + (flow0.val row0 col0).getD 0 0 ∧
            (row0 : ℚ) + (flow0.val row0 col0).getD 1 0 ≤ (flow0.rows : ℚ) - 1 ∧
            (col0 : ℚ) + (flow0.val row0 col0).getD 0 0 ≤ (flow0.cols : ℚ) - 1 then
          (if allcloseB (ids0.val row0 col0)
              (ids1.val (roundHalfEven ((row0 : ℚ) + (flow0.val row0 col0).getD 1 0)).toNat
                (roundHalfEven ((col0 : ℚ) + (flow0.val row0 col0).getD 0 0)).toNat)
              (idsAtolOf idsU8) then
            allcloseB (corresp0.val row0 col0)
              (bilinearBlend corresp1 ((row0 : ℚ) + (flow0.val row0 col0).getD 1 0)
                ((col0 : ℚ) + (flow0.val row0 col0).getD 0 0))
              (corrAtolOf corrU8)
          else false)
        else false) := by
  unfold crossCheckAgree
  by_cases hin : 0 ≤ (row0 : ℚ) + (flow0.val row0 col0).getD 1 0 ∧
      0 ≤ (col0 : ℚ) + (flow0.val row0 col0).getD 0 0 ∧
      (row0 : ℚ) + (flow0.val row0 col0).getD 1 0 ≤ (flow0.rows : ℚ) - 1 ∧
      (col0 : ℚ) + (flow0.val row0 col0).getD 0 0 ≤ (flow0.cols : ℚ) - 1
  · rw [if_pos hin, if_pos hin]
    have hok : getValInterpolated corresp1 ((row0 : ℚ) + (flow0.val row0 col0).getD 1 0)
        ((col0 : ℚ) + (flow0.val row0 col0).getD 0 0) =
        Except.ok (bilinearBlend corresp1 ((row0 : ℚ) + (flow0.val row0 col0).getD 1 0)
          ((col0 : ℚ) + (flow0.val row0 col0).getD 0 0)) := by
      apply getValInterpolated_ok
      · exact hin.1
      · rw [hrows]
        exact hin.2.2.1
      · exact hin.2.1
      · rw [hcols]
        exact hin.2.2.2
    by_cases hids : allcloseB (ids0.val row0 col0)
        (ids1.val (roundHalfEven ((row0 : ℚ) + (flow0.val row0 col0).getD 1 0)).toNat
          (roundHalfEven ((col0 : ℚ) + (flow0.val row0 col0).getD 0 0)).toNat)
        (idsAtolOf idsU8) = true
    · rw [if_pos hids, if_pos hids, hok]
    · rw [if_neg hids, if_neg hids]
  · rw [if_neg hin, if_neg hin]

/-- C5: the sanity check returns true exactly when either every agreement
condition holds (destination in bounds, object-id colors close at the
rounded destination, correspondence colors close at the bilinearly sampled
destination) and the occlusion mask at (row0, col0) is not above 200, or at
least one agreement condition fails and the occlusion mask is above 200. -/
theorem C5_sanity_rule (flow0 ids0 ids1 corresp0 corresp1 : Grid) (occ0 : ℕ → ℕ → ℕ)
    (idsU8 corrU8 : Bool) (row0 col0 : ℕ)
    (hrows : corresp1.rows = flow0.rows) (hcols : corresp1.cols = flow0.cols) :
    (crossCheckSanity flow0 ids0 ids1 corresp0 corresp1 occ0 idsU8 corrU8 row0 col0 =
          Except.ok true ∨
        crossCheckSanity flow0 ids0 ids1 corresp0 corresp1 occ0 idsU8 corrU8 row0 col0 =
          Except.ok false) ∧
      (crossCheckSanity flow0 ids0 ids1 corresp0 corresp1 occ0 idsU8 corrU8 row0 col0 =
          Except.ok true ↔
        (((0 ≤ (row0 : ℚ) + (flow0.val row0 col0).getD 1 0 ∧
            0 ≤ (col0 : ℚ) + (flow0.val row0 col0).getD 0 0 ∧
            (row0 : ℚ) + (flow0.val row0 col0).getD 1 0 ≤ (flow0.rows : ℚ) - 1 ∧
            (col0 : ℚ) + (flow0.val row0 col0).getD 0 0 ≤ (flow0.cols : ℚ) - 1) ∧
          allcloseB (ids0.val row0 col0)
              (ids1.val (roundHalfEven ((row0 : ℚ) + (flow0.val row0 col0).getD 1 0)).toNat
                (roundHalfEven ((col0 : ℚ) + (flow0.val row0 col0).getD 0 0)).toNat)
              (idsAtolOf idsU8) = true ∧
          allcloseB (corresp0.val row0 col0)
              (bilinearBlend corresp1 ((row0 : ℚ) + (flow0.val row0 col0).getD 1 0)
                ((col0 : ℚ) + (flow0.val row0 col0).getD 0 0))
              (corrAtolOf corrU8) = true ∧
          occ0 row0 col0 ≤ 200) ∨
        (¬((0 ≤ (row0 : ℚ) + (flow0.val row0 col0).getD 1 0 ∧
            0 ≤ (col0 : ℚ) + (flow0.val row0 col0).getD 0 0 ∧
            (row0 : ℚ) + (flow0.val row0 col0).getD 1 0 ≤ (flow0.rows : ℚ) - 1 ∧
            (col0 : ℚ) + (flow0.val row0 col0).getD 0 0 ≤ (flow0.cols : ℚ) - 1) ∧
          allcloseB (ids0.val row0 col0)
              (ids1.val (roundHalfEven ((row0 : ℚ) + (flow0.val row0 col0).getD 1 0)).toNat
                (roundHalfEven ((col0 : ℚ) + (flow0.val row0 col0).getD 0 0)).toNat)
              (idsAtolOf idsU8) = true ∧
          allcloseB (corresp0.val row0 col0)
              (bilinearBlend corresp1 ((row0 : ℚ) + (flow0.val row0 col0).getD 1 0)
                ((col0 : ℚ) + (flow0.val row0 col0).getD 0 0))
              (corrAtolOf corrU8) = true) ∧
          200 < occ0 row0 col0))) := by
  unfold crossCheckSanity
  rw [crossCheckAgree_eq flow0 ids0 ids1 corresp0 corresp1 idsU8 corrU8 row0 col0 hrows hcols,
    exceptMap_ok]
  set b : Bool := (if 0 ≤ (row0 : ℚ) + (flow0.val row0 col0).getD 1 0 ∧
      0 ≤ (col0 : ℚ) + (flow0.val row0 col0).getD 0 0 ∧
      (row0 : ℚ) + (flow0.val row0 col0).getD 1 0 ≤ (flow0.rows : ℚ) - 1 ∧
      (col0 : ℚ) + (flow0.val row0 col0).getD 0 0 ≤ (flow0.cols : ℚ) - 1 then
    (if allcloseB (ids0.val row0 col0)
        (ids1.val (roundHalfEven ((row0 : ℚ) + (flow0.val row0 col0).getD 1 0)).toNat
          (roundHalfEven ((col0 : ℚ) + (flow0.val row0 col0).getD 0 0)).toNat)
        (idsAtolOf idsU8) then
      allcloseB (corresp0.val row0 col0)
        (bilinearBlend corresp1 ((row0 : ℚ) + (flow0.val row0 col0).getD 1 0)
          ((col0 : ℚ) + (flow0.val row0 col0).getD 0 0))
        (corrAtolOf corrU8)
    else false)
  else false) with hbdef
  have hb : b = true ↔
      ((0 ≤ (row0 : ℚ) + (flow0.val row0 col0).getD 1 0 ∧
          0 ≤ (col0 : ℚ) + (flow0.val row0 col0).getD 0 0 ∧
          (row0 : ℚ) + (flow0.val row0 col0).getD 1 0 ≤ (flow0.rows : ℚ) - 1 ∧
          (col0 : ℚ) + (flow0.val row0 col0).getD 0 0 ≤ (flow0.cols : ℚ) - 1) ∧
        allcloseB (ids0.val row0 col0)
            (ids1.val (roundHalfEven ((row0 : ℚ) + (flow0.val row0 col0).getD 1 0)).toNat
              (roundHalfEven ((col0 : ℚ) + (flow0.val row0 col0).getD 0 0)).toNat)
            (idsAtolOf idsU8) = true ∧
        allcloseB (corresp0.val row0 col0)
            (bilinearBlend corresp1 ((row0 : ℚ) + (flow0.val row0 col0).getD 1 0)
              ((col0 : ℚ) + (flow0.val row0 col0).getD 0 0))
            (corrAtolOf corrU8) = true) := by
    rw [hbdef]
    split_ifs with h1 h2
    · exact ⟨fun h => ⟨h1, h2, h⟩, fun h => h.2.2⟩
    · exact ⟨fun h => h.elim, fun h => absurd h.2.1 h2⟩
    · exact ⟨fun h => h.elim, fun h => absurd h.1 h1⟩
  constructor
  · cases hval : (b && !(decide (200 < occ0 row0 col0)) ||
        !b && decide (200 < occ0 row0 col0))
    · right
      rfl
    · left
      rfl
  · rw [Except.ok.injEq]
    have hO : decide (200 < occ0 row0 col0) = true ↔ 200 < occ0 row0 col0 := by simp
    have hspec : (b && !(decide (200 < occ0 row0 col0)) ||
        !b && decide (200 < occ0 row0 col0)) = true ↔
        ((b = true ∧ ¬(200 < occ0 row0 col0)) ∨ (¬(b = true) ∧ 200 < occ0 row0 col0)) := by
      cases hB : b <;> cases hD : decide (200 < occ0 row0 col0) <;> simp_all
    rw [hspec, hb, not_lt]
    tauto

lemma vscale_length (v : Vec) (s : ℚ) : (vscale v s).length = v.length :=
  List.length_map v _

lemma vadd_length (a b : Vec) : (vadd a b).length = min a.length b.length :=
  List.length_zipWith _ a b

lemma vscale_getD (v : Vec) (s : ℚ) (k : ℕ) : (vscale v s).getD k 0 = v.getD k 0 * s := by
  by_cases hk : k < v.length
  · exact getD_map_of_lt _ v k 0 0 hk
  · push_neg at hk
    rw [List.getD_eq_default _ _ (by rw [vscale_length]; exact hk),
      List.getD_eq_default _ _ hk, zero_mul]

lemma vadd_getD (a b : Vec) (h : a.length = b.length) (k : ℕ) :
    (vadd a b).getD k 0 = a.getD k 0 + b.getD k 0 := by
  by_cases hk : k < a.length
  · have hk2 : k < b.length := h ▸ hk
    have hkz : k < (vadd a b).length := by
      rw [vadd_length, h, min_self]
      exact hk2
    rw [List.getD_eq_getElem _ _ hkz, List.getD_eq_getElem _ _ hk,
      List.getD_eq_getElem _ _ hk2]
    exact List.getElem_zipWith
  · push_neg at hk
    rw [List.getD_eq_default _ _ (by rw [vadd_length, h, min_self]; omega),
      List.getD_eq_default _ _ hk, List.getD_eq_default _ _ (by omega), add_zero]

/-- Channel k of the bilinear blend, as plain rational arithmetic, for grids
whose pixel values all have the same channel count. -/
lemma bilinearBlend_getD (g : Grid) (n : ℕ) (hlen : ∀ r c, (g.val r c).length = n)
    (rf cf : ℚ) (k : ℕ) :
    (bilinearBlend g rf cf).getD k 0 =
      ((g.val ⌊rf⌋.toNat ⌊cf⌋.toNat).getD k 0 * ((⌈cf⌉ : ℚ) - cf) +
        (g.val ⌊rf⌋.toNat ⌈cf⌉.toNat).getD k 0 * (1 - ((⌈cf⌉ : ℚ) - cf))) * ((⌈rf⌉ : ℚ) - rf) +
      ((g.val ⌈rf⌉.toNat ⌊cf⌋.toNat).getD k 0 * ((⌈cf⌉ : ℚ) - cf) +
        (g.val ⌈rf⌉.toNat ⌈cf⌉.toNat).getD k 0 * (1 - ((⌈cf⌉ : ℚ) - cf))) *
        (1 - ((⌈rf⌉ : ℚ) - rf)) := by
  unfold bilinearBlend
  rw [vadd_getD _ _ (by rw [vscale_length, vscale_length, vadd_length, vadd_length,
      vscale_length, vscale_length, vscale_length, vscale_length, hlen, hlen, hlen, hlen]),
    vscale_getD, vscale_getD,
    vadd_getD _ _ (by rw [vscale_length, vscale_length, hlen, hlen]),
    vadd_getD _ _ (by rw [vscale_length, vscale_length, hlen, hlen]),
    vscale_getD, vscale_getD, vscale_getD, vscale_getD]

/-- Embeds one output pixel (i, j) of flow_util.resample_flow (lines 239-281):
source coordinates scaled by the in/out ratios, floor and floor-plus-one
neighbour indices clipped into range with np.clip, the four corner samples
combined with the (possibly degenerate) area weights computed from the
clipped indices, and the x / y channels rescaled by the output/input ratios. -/
def resampleFlowPix (img : Grid) (outHeight outWidth : ℕ) (i j : ℕ) : ℚ × ℚ :=
  let xx : ℚ := (j : ℚ) * ((img.cols : ℚ) / (outWidth : ℚ))
  let yy : ℚ := (i : ℚ) * ((img.rows : ℚ) / (outHeight : ℚ))
  let x0 : ℤ := clipZ ⌊xx⌋ 0 ((img.cols : ℤ) - 1)
  let x1 : ℤ := clipZ (⌊xx⌋ + 1) 0 ((img.cols : ℤ) - 1)
  let y0 : ℤ := clipZ ⌊yy⌋ 0 ((img.rows : ℤ) - 1)
  let y1 : ℤ := clipZ (⌊yy⌋ + 1) 0 ((img.rows : ℤ) - 1)
  let wa : ℚ := ((y1 : ℚ) - yy) * ((x1 : ℚ) - xx)
  let wb : ℚ := (yy - (y0 : ℚ)) * ((x1 : ℚ) - xx)
  let wc : ℚ := ((y1 : ℚ) - yy) * (xx - (x0 : ℚ))
  let wd : ℚ := (yy - (y0 : ℚ)) * (xx - (x0 : ℚ))
  (((img.val y0.toNat x0.toNat).getD 0 0 * wa + (img.val y1.toNat x0.toNat).getD 0 0 * wb +
      (img.val y0.toNat x1.toNat).getD 0 0 * wc + (img.val y1.toNat x1.toNat).getD 0 0 * wd) *
        (outWidth : ℚ) / (img.cols : ℚ),
    ((img.val y0.toNat x0.toNat).getD 1 0 * wa + (img.val y1.toNat x0.toNat).getD 1 0 * wb +
      (img.val y0.toNat x1.toNat).getD 1 0 * wc + (img.val y1.toNat x1.toNat).getD 1 0 * wd) *
        (outHeight : ℚ) / (img.rows : ℚ))

/-- Specification-side resampler stated the way the claim reads: bilinearly
sample the source grid at the scaled output coordinates, then rescale the x
channel by outWidth/inWidth and the y channel by outHeight/inHeight. -/
def resampleFlowSpecPix (img : Grid) (outHeight outWidth : ℕ) (i j : ℕ) : ℚ × ℚ :=
  ((bilinearBlend img ((i : ℚ) * ((img.rows : ℚ) / (outHeight : ℚ)))
        ((j : ℚ) * ((img.cols : ℚ) / (outWidth : ℚ)))).getD 0 0 *
      (outWidth : ℚ) / (img.cols : ℚ),
    (bilinearBlend img ((i : ℚ) * ((img.rows : ℚ) / (outHeight : ℚ)))
        ((j : ℚ) * ((img.cols : ℚ) / (outWidth : ℚ)))).getD 1 0 *
      (outHeight : ℚ) / (img.rows : ℚ))

/-- Constant 2 x 2 flow field with value (1, 1) everywhere, on which identity
resampling exposes the border degeneracy of resample_flow. -/
def constFlow2 : Grid :=
  { rows := 2
    cols := 2
    channels := 2
    val := fun _ _ => [1, 1] }

/-- One-dimensional blend identity: the floor/ceil weighting with alpha
measured from the ceiling equals the floor/floor-plus-one weighting, at
integer coordinates included. -/
lemma blend1d (cf : ℚ) (valAt : ℤ → ℚ) :
    valAt ⌊cf⌋ * ((⌈cf⌉ : ℚ) - cf) + valAt ⌈cf⌉ * (1 - ((⌈cf⌉ : ℚ) - cf)) =
      valAt ⌊cf⌋ * (((⌊cf⌋ : ℚ) + 1) - cf) + valAt (⌊cf⌋ + 1) * (cf - (⌊cf⌋ : ℚ)) := by
  by_cases hint : ⌈cf⌉ = ⌊cf⌋
  · have hcf : cf = (⌊cf⌋ : ℚ) := by
      have h1 : cf ≤ (⌊cf⌋ : ℚ) := by
        have h2 := Int.le_ceil cf
        rw [hint] at h2
        exact h2
      exact le_antisymm h1 (Int.floor_le cf)
    have hu : cf - (⌊cf⌋ : ℚ) = 0 := sub_eq_zero.mpr hcf
    rw [hint]
    linear_combination (valAt ⌊cf⌋ - valAt (⌊cf⌋ + 1)) * hu
  · have hnint : ⌈cf⌉ = ⌊cf⌋ + 1 := by
      have h1 := Int.floor_le_ceil cf
      have h2 := Int.ceil_le_floor_add_one cf
      omega
    rw [hnint]
    push_cast
    ring

/-- Channel k of the bilinear blend in floor/floor-plus-one form, valid at
all coordinates. -/
lemma bilinearBlend_getD_floorForm (g : Grid) (n : ℕ)
    (hlen : ∀ r c, (g.val r c).length = n) (rf cf : ℚ) (k : ℕ) :
    (bilinearBlend g rf cf).getD k 0 =
      ((g.val ⌊rf⌋.toNat ⌊cf⌋.toNat).getD k 0 * (((⌊cf⌋ : ℚ) + 1) - cf) +
        (g.val ⌊rf⌋.toNat (⌊cf⌋ + 1).toNat).getD k 0 * (cf - (⌊cf⌋ : ℚ))) *
        (((⌊rf⌋ : ℚ) + 1) - rf) +
      ((g.val (⌊rf⌋ + 1).toNat ⌊cf⌋.toNat).getD k 0 * (((⌊cf⌋ : ℚ) + 1) - cf) +
        (g.val (⌊rf⌋ + 1).toNat (⌊cf⌋ + 1).toNat).getD k 0 * (cf - (⌊cf⌋ : ℚ))) *
        (rf - (⌊rf⌋ : ℚ)) := by
  rw [bilinearBlend_getD g n hlen rf cf k]
  have hrow := blend1d rf (fun z =>
    (g.val z.toNat ⌊cf⌋.toNat).getD k 0 * ((⌈cf⌉ : ℚ) - cf) +
      (g.val z.toNat ⌈cf⌉.toNat).getD k 0 * (1 - ((⌈cf⌉ : ℚ) - cf)))
  rw [hrow]
  have h1 := blend1d cf (fun z => (g.val ⌊rf⌋.toNat z.toNat).getD k 0)
  have h2 := blend1d cf (fun z => (g.val (⌊rf⌋ + 1).toNat z.toNat).getD k 0)
  rw [h1, h2]

theorem C8_rescale_counterexample :
    resampleFlowPix constFlow2 2 2 1 1 ≠ resampleFlowSpecPix constFlow2 2 2 1 1 := by
  have hc : ((1 : ℕ) : ℚ) * (((2 : ℕ) : ℚ) / ((2 : ℕ) : ℚ)) = 1 := by norm_num
  have h1 : resampleFlowPix constFlow2 2 2 1 1 = (0, 0) := by
    simp only [resampleFlowPix, constFlow2, clipZ, hc]
    norm_num
  have h2 : resampleFlowSpecPix constFlow2 2 2 1 1 = (1, 1) := by
    simp only [resampleFlowSpecPix, constFlow2, bilinearBlend, vadd, vscale, hc]
    norm_num
  rw [h1, h2]
  intro h
  rw [Prod.mk.injEq] at h
  exact absurd h.1 (by norm_num)

/-- C8 amended: at output pixels whose scaled source coordinates stay below
inHeight - 1 and inWidth - 1, resample_flow equals the bilinear sample of the
source grid at the scaled coordinates with channels rescaled by
outWidth/inWidth and outHeight/inHeight; at the remaining (border) pixels the
clipped corner weights cancel and the output is the zero vector instead. -/
theorem C8_rescale_amended (img : Grid) (oh ow i j : ℕ)
    (hwf : ∀ r c, (img.val r c).length = img.channels)
    (hoh : 1 ≤ oh) (how : 1 ≤ ow) (hrows : 1 ≤ img.rows) (hcols : 1 ≤ img.cols) :
    resampleFlowPix img oh ow i j =
      (if (img.rows : ℚ) - 1 ≤ (i : ℚ) * ((img.rows : ℚ) / (oh : ℚ)) ∨
          (img.cols : ℚ) - 1 ≤ (j : ℚ) * ((img.cols : ℚ) / (ow : ℚ)) then ((0 : ℚ), (0 : ℚ))
       else resampleFlowSpecPix img oh ow i j) := by
  have hy0 : (0 : ℚ) ≤ (i : ℚ) * ((img.rows : ℚ) / (oh : ℚ)) :=
    mul_nonneg (Nat.cast_nonneg i) (div_nonneg (Nat.cast_nonneg _) (Nat.cast_nonneg _))
  have hx0 : (0 : ℚ) ≤ (j : ℚ) * ((img.cols : ℚ) / (ow : ℚ)) :=
    mul_nonneg (Nat.cast_nonneg j) (div_nonneg (Nat.cast_nonneg _) (Nat.cast_nonneg _))
  have hrZ : (1 : ℤ) ≤ (img.rows : ℤ) := by exact_mod_cast hrows
  have hcZ : (1 : ℤ) ≤ (img.cols : ℤ) := by exact_mod_cast hcols
  simp only [resampleFlowPix, resampleFlowSpecPix]
  by_cases hdeg : (img.rows : ℚ) - 1 ≤ (i : ℚ) * ((img.rows : ℚ) / (oh : ℚ)) ∨
      (img.cols : ℚ) - 1 ≤ (j : ℚ) * ((img.cols : ℚ) / (ow : ℚ))
  · rw [if_pos hdeg]
    rcases hdeg with hyd | hxd
    · have hfl : (img.rows : ℤ) - 1 ≤ ⌊(i : ℚ) * ((img.rows : ℚ) / (oh : ℚ))⌋ := by
        rw [Int.le_floor]
        push_cast
        exact hyd
      have hy0clip : clipZ ⌊(i : ℚ) * ((img.rows : ℚ) / (oh : ℚ))⌋ 0 ((img.rows : ℤ) - 1) =
          (img.rows : ℤ) - 1 := by
        unfold clipZ
        rw [max_eq_left (le_trans (by omega) hfl), min_eq_right hfl]
      have hy1clip : clipZ (⌊(i : ℚ) * ((img.rows : ℚ) / (oh : ℚ))⌋ + 1) 0
          ((img.rows : ℤ) - 1) = (img.rows : ℤ) - 1 := by
        unfold clipZ
        rw [max_eq_left (by omega), min_eq_right (by omega)]
      rw [hy0clip, hy1clip, Prod.mk.injEq]
      constructor <;> ring
    · have hfl : (img.cols : ℤ) - 1 ≤ ⌊(j : ℚ) * ((img.cols : ℚ) / (ow : ℚ))⌋ := by
        rw [Int.le_floor]
        push_cast
        exact hxd
      have hx0clip : clipZ ⌊(j : ℚ) * ((img.cols : ℚ) / (ow : ℚ))⌋ 0 ((img.cols : ℤ) - 1) =
          (img.cols : ℤ) - 1 := by
        unfold clipZ
        rw [max_eq_left (le_trans (by omega) hfl), min_eq_right hfl]
      have hx1clip : clipZ (⌊(j : ℚ) * ((img.cols : ℚ) / (ow : ℚ))⌋ + 1) 0
          ((img.cols : ℤ) - 1) = (img.cols : ℤ) - 1 := by
        unfold clipZ
        rw [max_eq_left (by omega), min_eq_right (by omega)]
      rw [hx0clip, hx1clip, Prod.mk.injEq]
      constructor <;> ring
  · rw [if_neg hdeg]
    push_neg at hdeg
    obtain ⟨hylt, hxlt⟩ := hdeg
    have hyfl0 : (0 : ℤ) ≤ ⌊(i : ℚ) * ((img.rows : ℚ) / (oh : ℚ))⌋ := Int.floor_nonneg.mpr hy0
    have hyfl1 : ⌊(i : ℚ) * ((img.rows : ℚ) / (oh : ℚ))⌋ < (img.rows : ℤ) - 1 := by
      rw [Int.floor_lt]
      push_cast
      exact hylt
    have hxfl0 : (0 : ℤ) ≤ ⌊(j : ℚ) * ((img.cols : ℚ) / (ow : ℚ))⌋ := Int.floor_nonneg.mpr hx0
    have hxfl1 : ⌊(j : ℚ) * ((img.cols : ℚ) / (ow : ℚ))⌋ < (img.cols : ℤ) - 1 := by
      rw [Int.floor_lt]
      push_cast
      exact hxlt
    rw [clipZ_eq_self ⌊(i : ℚ) * ((img.rows : ℚ) / (oh : ℚ))⌋ 0 ((img.rows : ℤ) - 1)
        hyfl0 (by omega),
      clipZ_eq_self (⌊(i : ℚ) * ((img.rows : ℚ) / (oh : ℚ))⌋ + 1) 0 ((img.rows : ℤ) - 1)
        (by omega) (by omega),
      clipZ_eq_self ⌊(j : ℚ) * ((img.cols : ℚ) / (ow : ℚ))⌋ 0 ((img.cols : ℤ) - 1)
        hxfl0 (by omega),
      clipZ_eq_self (⌊(j : ℚ) * ((img.cols : ℚ) / (ow : ℚ))⌋ + 1) 0 ((img.cols : ℤ) - 1)
        (by omega) (by omega),
      bilinearBlend_getD_floorForm img img.channels hwf,
      bilinearBlend_getD_floorForm img img.channels hwf, Prod.mk.injEq]
    constructor <;> (push_cast; ring)

/-- Witness for the amended C8 at a strictly-downsampled pixel of the 4 x 4
example flow. -/
theorem C8_rescale_amended_witness :
    resampleFlowPix occFlowF 2 2 1 1 =
      (if (occFlowF.rows : ℚ) - 1 ≤ (1 : ℚ) * ((occFlowF.rows : ℚ) / (2 : ℚ)) ∨
          (occFlowF.cols : ℚ) - 1 ≤ (1 : ℚ) * ((occFlowF.cols : ℚ) / (2 : ℚ)) then
        ((0 : ℚ), (0 : ℚ))
       else resampleFlowSpecPix occFlowF 2 2 1 1) :=
  C8_rescale_amended occFlowF 2 2 1 1
    (by
      intro r c
      simp only [occFlowF]
      split_ifs <;> rfl)
    (by norm_num) (by norm_num) (by norm_num [occFlowF]) (by norm_num [occFlowF])

/-- Concrete 1 x 1 frame pair data for the sanity-check witness: zero flow,
matching ids and correspondence colors, occlusion mask zero. -/
def saneFlow : Grid := { rows := 1, cols := 1, channels := 2, val := fun _ _ => [0, 0] }

/-- Object-id image of the sanity-check witness. -/
def saneIds : Grid := { rows := 1, cols := 1, channels := 3, val := fun _ _ => [5, 5, 5] }

/-- Correspondence image of the sanity-check witness. -/
def saneCorr : Grid := { rows := 1, cols := 1, channels := 3, val := fun _ _ => [1, 2, 3] }

/-- Witness for C5 at pixel (0, 0) of a consistent 1 x 1 frame pair. -/
theorem C5_sanity_rule_witness :
    (crossCheckSanity saneFlow saneIds saneIds saneCorr saneCorr (fun _ _ => 0)
          true true 0 0 = Except.ok true ∨
        crossCheckSanity saneFlow saneIds saneIds saneCorr saneCorr (fun _ _ => 0)
          true true 0 0 = Except.ok false) ∧
      (crossCheckSanity saneFlow saneIds saneIds saneCorr saneCorr (fun _ _ => 0)
          true true 0 0 = Except.ok true ↔
        (((0 ≤ ((0 : ℕ) : ℚ) + (saneFlow.val 0 0).getD 1 0 ∧
            0 ≤ ((0 : ℕ) : ℚ) + (saneFlow.val 0 0).getD 0 0 ∧
            ((0 : ℕ) : ℚ) + (saneFlow.val 0 0).getD 1 0 ≤ (saneFlow.rows : ℚ) - 1 ∧
            ((0 : ℕ) : ℚ) + (saneFlow.val 0 0).getD 0 0 ≤ (saneFlow.cols : ℚ) - 1) ∧
          allcloseB (saneIds.val 0 0)
              (saneIds.val (roundHalfEven (((0 : ℕ) : ℚ) + (saneFlow.val 0 0).getD 1 0)).toNat
                (roundHalfEven (((0 : ℕ) : ℚ) + (saneFlow.val 0 0).getD 0 0)).toNat)
              (idsAtolOf true) = true ∧
          allcloseB (saneCorr.val 0 0)
              (bilinearBlend saneCorr (((0 : ℕ) : ℚ) + (saneFlow.val 0 0).getD 1 0)
                (((0 : ℕ) : ℚ) + (saneFlow.val 0 0).getD 0 0))
              (corrAtolOf true) = true ∧
          (fun (_ _ : ℕ) => 0) 0 0 ≤ 200) ∨
        (¬((0 ≤ ((0 : ℕ) : ℚ) + (saneFlow.val 0 0).getD 1 0 ∧
            0 ≤ ((0 : ℕ) : ℚ) + (saneFlow.val 0 0).getD 0 0 ∧
            ((0 : ℕ) : ℚ) + (saneFlow.val 0 0).getD 1 0 ≤ (saneFlow.rows : ℚ) - 1 ∧
            ((0 : ℕ) : ℚ) + (saneFlow.val 0 0).getD 0 0 ≤ (saneFlow.cols : ℚ) - 1) ∧
          allcloseB (saneIds.val 0 0)
              (saneIds.val (roundHalfEven (((0 : ℕ) : ℚ) + (saneFlow.val 0 0).getD 1 0)).toNat
                (roundHalfEven (((0 : ℕ) : ℚ) + (saneFlow.val 0 0).getD 0 0)).toNat)
              (idsAtolOf true) = true ∧
          allcloseB (saneCorr.val 0 0)
              (bilinearBlend saneCorr (((0 : ℕ) : ℚ) + (saneFlow.val 0 0).getD 1 0)
                (((0 : ℕ) : ℚ) + (saneFlow.val 0 0).getD 0 0))
              (corrAtolOf true) = true) ∧
          200 < (fun (_ _ : ℕ) => 0) 0 0))) :=
  C5_sanity_rule saneFlow saneIds saneIds saneCorr saneCorr (fun _ _ => 0)
    true true 0 0 rfl rfl

/-- Python exception classes distinguished by the codec claims. indexError
stands for the exception escaping the wrong-tag branch of read_flow: the
statement raise ValueError("Wrong tag {0}".format_map(tag)) crashes inside
format_map (a positional field with no positional arguments), so the
intended ValueError is never constructed. structError stands for
struct.error raised by struct.unpack on a short read. -/
inductive PyExn where
  | indexError
  | valueError
  | structError
deriving DecidableEq

/-- Bit pattern of the little-endian float32 202021.25, the .flo magic tag;
equal to 0x48454950, i.e. the bytes "PIEH" in file order. Comparing the
decoded tag float with 202021.25 is equivalent to comparing this word, since
202021.25 is not zero (no sign ambiguity) and equality with a NaN pattern is
always false. -/
def floTagWord : ℕ := 1212500304

/-- Word is a float32 bit pattern of a finite value: in range and with the
exponent field not all ones. -/
def isFiniteWord (x : ℕ) : Prop := x < 2 ^ 32 ∧ (x / 2 ^ 23) % 256 ≠ 255

/-- Signed 32-bit decoding of a little-endian word, as struct.unpack of
the format i does. -/
def decodeI32 (w : ℕ) : ℤ := if w < 2 ^ 31 then (w : ℤ) else (w : ℤ) - 2 ^ 32

/-- Interleaving of the channel-0 and channel-1 columns, the word order the
tmp array of the fast packing path of write_flow (lines 121-124) lays out
in each row. -/
def interleave : List ℕ → List ℕ → List ℕ
  | a :: as, b :: bs => a :: b :: interleave as bs
  | _, _ => []

/-- Payload word stream emitted by the fast packing path of write_flow:
row-major rows, each row the interleaving of its x and y words. -/
def flowPayloadFast (flow : List (List (ℕ × ℕ))) : List ℕ :=
  flow.flatMap (fun row => interleave (row.map Prod.fst) (row.map Prod.snd))

/-- Payload word stream emitted by the slow packing path of write_flow
(lines 117-119): pixel by pixel in row-major order, x word then y word. -/
def flowPayloadSlow (flow : List (List (ℕ × ℕ))) : List ℕ :=
  flow.flatMap (fun row => row.flatMap (fun p => [p.1, p.2]))

/-- Embeds io_util.write_flow (lines 87-126) at word level: the header is
the tag word, the width (number of columns) and the height (number of rows),
followed by the packed payload. The two-channel shape check and the
little-endian host check of the source cannot fire in this model (pixels are
pairs and the format is already word-level little-endian). -/
def writeFlow (flow : List (List (ℕ × ℕ))) (slowPacking : Bool) : List ℕ :=
  floTagWord :: (flow.headD []).length :: flow.length ::
    (if slowPacking then flowPayloadSlow flow else flowPayloadFast flow)

/-- Embeds np.resize of a flat array to a given total size, with classic
numpy semantics: an empty input yields zeros, otherwise the data is repeated
cyclically until the requested size is reached. -/
def npResizeFlat (data : List ℕ) (total : ℕ) : List ℕ :=
  if data.length = 0 then List.replicate total 0
  else (List.range total).map (fun i => data.getD (i % data.length) 0)

/-- Pairs of consecutive words: the innermost (channel) axis of the reshape
to (height, width, 2). A trailing odd word is dropped. -/
def chunkPairs : List ℕ → List (ℕ × ℕ)
  | a :: b :: rest => (a, b) :: chunkPairs rest
  | _ => []

/-- Splits a list into n consecutive chunks of size k, the outer axes of a
numpy reshape: n is the extent of the axis, k the size of one element of
that axis. -/
def chunkRows {α : Type} : ℕ → ℕ → List α → List (List α)
  | 0, _, _ => []
  | n + 1, k, ws => ws.take k :: chunkRows n k (ws.drop k)

/-- Reads n pixels of two words each, as the inner loop of the slow
unpacking path of read_flow (lines 71-78) does; fewer than two remaining
words raise struct.error (the source's too-short ValueError is dead code:
it compares the bytes object to a str). -/
def readPairs : ℕ → List ℕ → Except PyExn (List (ℕ × ℕ) × List ℕ)
  | 0, ws => Except.ok ([], ws)
  | n + 1, a :: b :: ws =>
      match readPairs n ws with
      | Except.error e => Except.error e
      | Except.ok (ps, rest) => Except.ok ((a, b) :: ps, rest)
  | _ + 1, _ => Except.error PyExn.structError

/-- Reads h rows of w pixels each: the nested loops of the slow unpacking
path of read_flow. -/
def readRowsSlow : ℕ → ℕ → List ℕ → Except PyExn (List (List (ℕ × ℕ)))
  | 0, _, _ => Except.ok []
  | h + 1, w, ws =>
      match readPairs w ws with
      | Except.error e => Except.error e
      | Except.ok (row, rest) =>
          match readRowsSlow h w rest with
          | Except.error e => Except.error e
          | Except.ok rows => Except.ok (row :: rows)

/-- Embeds io_util.read_flow (lines 22-84) on the file's word sequence, on a
little-endian host. A header shorter than three words raises struct.error;
a wrong tag crashes in the message formatting of the intended ValueError
(see PyExn.indexError); out-of-range width or height raise ValueError; the
slow path then reads pixel pairs one at a time, while the fast path reads at
most count = 2 * width * height words and reshapes them with np.resize,
which silently recycles (or zero-fills) short data. -/
def readFlow (words : List ℕ) (slowUnpacking : Bool) :
    Except PyExn (List (List (ℕ × ℕ))) :=
  match words with
  | w0 :: w1 :: w2 :: rest =>
      if w0 ≠ floTagWord then Except.error PyExn.indexError
      else if decodeI32 w1 < 1 ∨ decodeI32 w1 > 99999 then Except.error PyExn.valueError
      else if decodeI32 w2 < 1 ∨ decodeI32 w2 > 99999 then Except.error PyExn.valueError
      else if slowUnpacking then
        readRowsSlow (decodeI32 w2).toNat (decodeI32 w1).toNat rest
      else
        Except.ok (chunkRows (decodeI32 w2).toNat (decodeI32 w1).toNat (chunkPairs
          (npResizeFlat (rest.take (2 * (decodeI32 w1).toNat * (decodeI32 w2).toNat))
            ((decodeI32 w2).toNat * (decodeI32 w1).toNat * 2))))
  | _ => Except.error PyExn.structError

/-- Shape well-formedness of an in-memory flow array: h rows, each of w
pixels. -/
def FlowWF (flow : List (List (ℕ × ℕ))) (h w : ℕ) : Prop :=
  flow.length = h ∧ ∀ row ∈ flow, row.length = w

lemma interleave_eq_flatMap (row : List (ℕ × ℕ)) :
    interleave (row.map Prod.fst) (row.map Prod.snd) =
      row.flatMap (fun p => [p.1, p.2]) := by
  induction row with
  | nil => rfl
  | cons p tl ih =>
      rw [List.map_cons, List.map_cons, List.flatMap_cons, interleave, ih]
      rfl

lemma flowPayloadFast_eq (flow : List (List (ℕ × ℕ))) :
    flowPayloadFast flow = flowPayloadSlow flow := by
  unfold flowPayloadFast flowPayloadSlow
  induction flow with
  | nil => rfl
  | cons r t ih =>
      rw [List.flatMap_cons, List.flatMap_cons, interleave_eq_flatMap, ih]

lemma length_flatMap_const2 {α β : Type} (f : β → List α) (k : ℕ) (l : List β)
    (hlen : ∀ x ∈ l, (f x).length = k) : (l.flatMap f).length = l.length * k := by
  induction l with
  | nil => simp
  | cons a tl ih =>
      rw [List.flatMap_cons, List.length_append, hlen a (by simp),
        ih (fun x hx => hlen x (by simp [hx])), List.length_cons]
      ring

lemma flowPayloadSlow_length (flow : List (List (ℕ × ℕ))) (w : ℕ)
    (hw : ∀ row ∈ flow, row.length = w) :
    (flowPayloadSlow flow).length = flow.length * (w * 2) := by
  unfold flowPayloadSlow
  apply length_flatMap_const2
  intro row hrow
  rw [length_flatMap_const2 (fun p => [p.1, p.2]) 2 row (fun p _ => rfl), hw row hrow]

lemma npResizeFlat_self (data : List ℕ) (total : ℕ) (h : data.length = total) :
    npResizeFlat data total = data := by
  unfold npResizeFlat
  by_cases hd : data.length = 0
  · rw [if_pos hd]
    rw [hd] at h
    rw [List.length_eq_zero.mp hd, ← h]
    rfl
  · rw [if_neg hd]
    apply List.ext_getElem
    · rw [List.length_map, List.length_range, h]
    · intro i h1 h2
      rw [List.getElem_map, List.getElem_range]
      rw [List.length_map, List.length_range] at h1
      have him : i % data.length = i := Nat.mod_eq_of_lt (by omega)
      rw [him, List.getD_eq_getElem data 0 h2]

lemma chunkPairs_append (row : List (ℕ × ℕ)) (rest : List ℕ) :
    chunkPairs (row.flatMap (fun p => [p.1, p.2]) ++ rest) = row ++ chunkPairs rest := by
  induction row with
  | nil => rfl
  | cons p tl ih =>
      rw [List.flatMap_cons]
      show chunkPairs (p.1 :: p.2 :: (tl.flatMap (fun q => [q.1, q.2]) ++ rest)) = _
      rw [chunkPairs, ih]
      rfl

lemma chunkPairs_payload (flow : List (List (ℕ × ℕ))) :
    chunkPairs (flowPayloadSlow flow) = flow.flatMap (fun r => r) := by
  induction flow with
  | nil => rfl
  | cons r t ih =>
      unfold flowPayloadSlow at *
      rw [List.flatMap_cons, List.flatMap_cons, chunkPairs_append, ih]

lemma chunkRows_flatMap {α : Type} (ls : List (List α)) (k : ℕ)
    (hl : ∀ l ∈ ls, l.length = k) :
    chunkRows ls.length k (ls.flatMap (fun l => l)) = ls := by
  induction ls with
  | nil => rfl
  | cons l t ih =>
      rw [List.flatMap_cons, List.length_cons, chunkRows]
      have h1 : (l ++ t.flatMap (fun x => x)).take k = l := by
        rw [← hl l (by simp), List.take_left]
      have h2 : (l ++ t.flatMap (fun x => x)).drop k = t.flatMap (fun x => x) := by
        rw [← hl l (by simp), List.drop_left]
      rw [h1, h2, ih (fun x hx => hl x (by simp [hx]))]

lemma readPairs_append (row : List (ℕ × ℕ)) (rest : List ℕ) :
    readPairs row.length (row.flatMap (fun p => [p.1, p.2]) ++ rest) =
      Except.ok (row, rest) := by
  induction row with
  | nil => rfl
  | cons p tl ih =>
      rw [List.flatMap_cons, List.length_cons]
      show readPairs (tl.length + 1)
        (p.1 :: p.2 :: (tl.flatMap (fun q => [q.1, q.2]) ++ rest)) = _
      rw [readPairs, ih]

lemma flowPayloadSlow_cons (r : List (ℕ × ℕ)) (t : List (List (ℕ × ℕ))) :
    flowPayloadSlow (r :: t) =
      r.flatMap (fun p => [p.1, p.2]) ++ flowPayloadSlow t := by
  unfold flowPayloadSlow
  rw [List.flatMap_cons]

lemma readRowsSlow_payload (flow : List (List (ℕ × ℕ))) (w : ℕ)
    (hw : ∀ row ∈ flow, row.length = w) (rest : List ℕ) :
    readRowsSlow flow.length w (flowPayloadSlow flow ++ rest) = Except.ok flow := by
  induction flow generalizing rest with
  | nil => rfl
  | cons r t ih =>
      rw [flowPayloadSlow_cons, List.length_cons, List.append_assoc, readRowsSlow]
      have hr : r.length = w := hw r (by simp)
      have hread := readPairs_append r (flowPayloadSlow t ++ rest)
      rw [hr] at hread
      rw [hread]
      show (match readRowsSlow t.length w (flowPayloadSlow t ++ rest) with
        | Except.error e => Except.error e
        | Except.ok rows => Except.ok (r :: rows)) = Except.ok (r :: t)
      rw [ih (fun x hx => hw x (by simp [hx]))]

/-- C1: writing a well-formed flow field of finite float32 values with
write_flow and reading the file back with read_flow returns the field with
bit-identical words, for each combination of the fast and slow packing and
unpacking paths. -/
theorem C1_flo_roundtrip (flow : List (List (ℕ × ℕ))) (h w : ℕ)
    (hwf : FlowWF flow h w)
    (hw1 : 1 ≤ w) (hw2 : w ≤ 99999) (hh1 : 1 ≤ h) (hh2 : h ≤ 99999)
    (hfin : ∀ row ∈ flow, ∀ p ∈ row, isFiniteWord p.1 ∧ isFiniteWord p.2)
    (slowPacking slowUnpacking : Bool) :
    readFlow (writeFlow flow slowPacking) slowUnpacking = Except.ok flow := by
  obtain ⟨hlen, hrows⟩ := hwf
  have hwrite : writeFlow flow slowPacking =
      floTagWord :: w :: h :: flowPayloadSlow flow := by
    cases flow with
    | nil =>
        rw [List.length_nil] at hlen
        omega
    | cons r t =>
        have hwr : r.length = w := hrows r (by simp)
        cases slowPacking
        · show floTagWord :: (List.headD (r :: t) []).length :: (r :: t).length ::
            flowPayloadFast (r :: t) = _
          rw [flowPayloadFast_eq, List.headD_cons, hwr, hlen]
        · show floTagWord :: (List.headD (r :: t) []).length :: (r :: t).length ::
            flowPayloadSlow (r :: t) = _
          rw [List.headD_cons, hwr, hlen]
  rw [hwrite, readFlow]
  have hdw : decodeI32 w = (w : ℤ) := by
    rw [decodeI32, if_pos (lt_of_le_of_lt hw2 (by norm_num))]
  have hdh : decodeI32 h = (h : ℤ) := by
    rw [decodeI32, if_pos (lt_of_le_of_lt hh2 (by norm_num))]
  rw [if_neg (by simp), hdw, hdh,
    if_neg (by push_neg; constructor <;> [exact_mod_cast hw1; exact_mod_cast hw2]),
    if_neg (by push_neg; constructor <;> [exact_mod_cast hh1; exact_mod_cast hh2]),
    Int.toNat_natCast, Int.toNat_natCast]
  have hplen : (flowPayloadSlow flow).length = h * (w * 2) := by
    rw [flowPayloadSlow_length flow w hrows, hlen]
  cases slowUnpacking
  · rw [if_neg (by simp),
      List.take_of_length_le (by rw [hplen]; exact le_of_eq (by ring)),
      npResizeFlat_self _ _ (by rw [hplen]; ring), chunkPairs_payload, ← hlen,
      chunkRows_flatMap flow w hrows]
  · rw [if_pos rfl]
    have hslow := readRowsSlow_payload flow w hrows []
    rw [List.append_nil] at hslow
    rw [← hlen]
    exact hslow

/-- Witness for C1 on a 1 x 1 flow field, exercising slow packing with fast
unpacking and fast packing with slow unpacking. -/
theorem C1_flo_roundtrip_witness :
    readFlow (writeFlow [[((1 : ℕ), (2 : ℕ))]] true) false = Except.ok [[(1, 2)]] ∧
      readFlow (writeFlow [[((1 : ℕ), (2 : ℕ))]] false) true = Except.ok [[(1, 2)]] :=
  ⟨C1_flo_roundtrip [[(1, 2)]] 1 1
      ⟨rfl, by intro row hrow; rw [List.mem_singleton] at hrow; rw [hrow]; rfl⟩
      (by norm_num) (by norm_num) (by norm_num) (by norm_num)
      (by
        intro row hrow p hp
        rw [List.mem_singleton] at hrow
        subst hrow
        rw [List.mem_singleton] at hp
        subst hp
        exact ⟨⟨by norm_num, by norm_num⟩, ⟨by norm_num, by norm_num⟩⟩)
      true false,
    C1_flo_roundtrip [[(1, 2)]] 1 1
      ⟨rfl, by intro row hrow; rw [List.mem_singleton] at hrow; rw [hrow]; rfl⟩
      (by norm_num) (by norm_num) (by norm_num) (by norm_num)
      (by
        intro row hrow p hp
        rw [List.mem_singleton] at hrow
        subst hrow
        rw [List.mem_singleton] at hp
        subst hp
        exact ⟨⟨by norm_num, by norm_num⟩, ⟨by norm_num, by norm_num⟩⟩)
      false true⟩

/-- C10 evidence: on a well-formed header (width 2, height 1) with a payload
of only two of the four required float words, the fast unpacking path does
not fail: np.resize silently recycles the payload and read_flow returns a
fabricated flow array; with an empty payload it returns zeros. Only the slow
path fails (with struct.error, since the intended too-short ValueError check
compares bytes to str and never fires). -/
theorem C10_truncated_payload :
    readFlow [floTagWord, 2, 1, 10, 20] false = Except.ok [[(10, 20), (10, 20)]] ∧
      readFlow [floTagWord, 2, 1, 10, 20] true = Except.error PyExn.structError ∧
      readFlow [floTagWord, 2, 1] false = Except.ok [[(0, 0), (0, 0)]] ∧
      readFlow [floTagWord, 2, 1] true = Except.error PyExn.structError :=
  ⟨rfl, rfl, rfl, rfl⟩

/-- Character codes of the string data (zip entry names are modelled as
their lists of character codes). -/
def dataCodes : List ℕ := [100, 97, 116, 97]

/-- Character codes of the string binary. -/
def binaryCodes : List ℕ := [98, 105, 110, 97, 114, 121]

/-- Decimal digit codes of n, as the %d conversion renders it. -/
def natCodes (n : ℕ) : List ℕ :=
  if n = 0 then [48] else ((Nat.digits 10 n).map (fun d => 48 + d)).reverse

/-- Inner zip entry filename data.a.b.c.binary of compress_4dnparray
(line 210), as character codes (46 is the dot). -/
def innerName (a b c : ℕ) : List ℕ :=
  dataCodes ++ 46 :: natCodes a ++ 46 :: natCodes b ++ 46 :: natCodes c ++ 46 :: binaryCodes

/-- Embeds io_util.compress_4dnparray (lines 192-215) on a nested-list 4-D
array of float32 words: the archive is the single entry whose name is the
slash plus the inner filename encoding shape[1], shape[2], shape[3], and
whose payload is the row-major flattening of the array. The 4-dimension
check of the source always passes in this model. -/
def compress4d (F : List (List (List (List ℕ)))) : List (List ℕ × List ℕ) :=
  [(47 :: innerName (F.headD []).length ((F.headD []).headD []).length
      (((F.headD []).headD []).headD []).length,
    F.flatMap (fun frame => frame.flatMap (fun row => row.flatMap (fun px => px))))]

/-- Splitting a code list on the dot (code 46), keeping empty pieces, as the
group structure the decompress regex sees. -/
def splitSep : List ℕ → List (List ℕ)
  | [] => [[]]
  | c :: cs =>
      match splitSep cs with
      | [] => [[]]
      | p :: ps => if c = 46 then [] :: p :: ps else (c :: p) :: ps

/-- Nonempty all-decimal-digit code list, the [0-9]+ groups of the pattern. -/
def isDigitsB (cs : List ℕ) : Bool :=
  (decide (cs ≠ [])) && cs.all (fun c => decide (48 ≤ c) && decide (c ≤ 57))

/-- Integer value of a digit-code list, as int() of the matched group. -/
def parseDigits (cs : List ℕ) : ℕ := cs.foldl (fun a c => a * 10 + (c - 48)) 0

/-- Embeds the re.match of decompress_4dnparray (lines 226-236) against the
anchored pattern dot-star data backslash-dot digits dot digits dot digits
dot binary end: the last five dot-separated pieces must be a piece ending in
data, three digit groups and the literal binary. -/
def parseInnerName (name : List ℕ) : Option (ℕ × ℕ × ℕ) :=
  match (splitSep name).reverse with
  | bin :: d3 :: d2 :: d1 :: pre :: _ =>
      if bin = binaryCodes ∧ isDigitsB d1 = true ∧ isDigitsB d2 = true ∧
          isDigitsB d3 = true ∧ dataCodes.isSuffixOf pre = true then
        some (parseDigits d1, parseDigits d2, parseDigits d3)
      else none
  | _ => none

/-- Embeds io_util.decompress_4dnparray (lines 218-248): exactly one entry,
dimensions parsed from its name, payload reshaped to
(-1, width, height, nchannels); a name that does not match the pattern or a
payload whose size the shape does not divide is an error (RuntimeError /
numpy reshape error). -/
def decompress4d (z : List (List ℕ × List ℕ)) :
    Except Unit (List (List (List (List ℕ)))) :=
  match z with
  | [(name, data)] =>
      match parseInnerName name with
      | none => Except.error ()
      | some (a, b, c) =>
          if a * b * c = 0 ∨ ¬(a * b * c ∣ data.length) then Except.error ()
          else
            Except.ok (chunkRows (data.length / (a * b * c)) a
              (chunkRows (data.length / (b * c)) b
                (chunkRows (data.length / c) c data)))
  | _ => Except.error ()

lemma natCodes_ne_nil (n : ℕ) : natCodes n ≠ [] := by
  unfold natCodes
  by_cases hn : n = 0
  · rw [if_pos hn]
    simp
  · rw [if_neg hn]
    simp [Nat.digits_ne_nil_iff_ne_zero.mpr hn]

lemma natCodes_bounds (n : ℕ) : ∀ c ∈ natCodes n, 48 ≤ c ∧ c ≤ 57 := by
  intro c hc
  unfold natCodes at hc
  by_cases hn : n = 0
  · rw [if_pos hn] at hc
    rw [List.mem_singleton] at hc
    omega
  · rw [if_neg hn, List.mem_reverse, List.mem_map] at hc
    obtain ⟨d, hd, rfl⟩ := hc
    have := Nat.digits_lt_base (by norm_num) hd
    omega

lemma natCodes_no_sep (n : ℕ) : 46 ∉ natCodes n := by
  intro hmem
  have := natCodes_bounds n 46 hmem
  omega

lemma isDigitsB_natCodes (n : ℕ) : isDigitsB (natCodes n) = true := by
  rw [isDigitsB, Bool.and_eq_true, decide_eq_true_eq, List.all_eq_true]
  refine ⟨natCodes_ne_nil n, ?_⟩
  intro c hc
  have := natCodes_bounds n c hc
  rw [Bool.and_eq_true, decide_eq_true_eq, decide_eq_true_eq]
  omega

lemma foldl_digit_codes (ds : List ℕ) (a : ℕ) :
    ((ds.map (fun d => 48 + d)).reverse).foldl (fun x c => x * 10 + (c - 48)) a =
      a * 10 ^ ds.length + Nat.ofDigits 10 ds := by
  induction ds generalizing a with
  | nil => simp [Nat.ofDigits_nil]
  | cons d tl ih =>
      rw [List.map_cons, List.reverse_cons, List.foldl_append, ih a, List.foldl_cons,
        List.foldl_nil, Nat.ofDigits_cons, List.length_cons]
      have hsub : 48 + d - 48 = d := by omega
      rw [hsub, pow_succ]
      push_cast
      ring

lemma parseDigits_natCodes (n : ℕ) : parseDigits (natCodes n) = n := by
  unfold parseDigits natCodes
  by_cases hn : n = 0
  · rw [if_pos hn, hn]
    rfl
  · rw [if_neg hn, foldl_digit_codes (Nat.digits 10 n) 0, Nat.ofDigits_digits]
    ring

lemma splitSep_ne_nil (l : List ℕ) : splitSep l ≠ [] := by
  induction l with
  | nil => simp [splitSep]
  | cons c cs ih =>
      rw [splitSep]
      cases hs : splitSep cs with
      | nil => exact absurd hs ih
      | cons p ps =>
          show (if c = 46 then [] :: p :: ps else (c :: p) :: ps) ≠ []
          by_cases hc : c = 46
          · rw [if_pos hc]
            simp
          · rw [if_neg hc]
            simp

lemma splitSep_no_sep (l : List ℕ) (hl : 46 ∉ l) : splitSep l = [l] := by
  induction l with
  | nil => rfl
  | cons c cs ih =>
      have hc : c ≠ 46 := fun h => hl (by rw [h]; simp)
      have hcs : 46 ∉ cs := fun h => hl (by simp [h])
      rw [splitSep, ih hcs]
      show (if c = 46 then [] :: cs :: [] else (c :: cs) :: []) = [c :: cs]
      rw [if_neg hc]

lemma splitSep_append (a b : List ℕ) (ha : 46 ∉ a) :
    splitSep (a ++ 46 :: b) = a :: splitSep b := by
  induction a with
  | nil =>
      rw [List.nil_append, splitSep]
      cases hs : splitSep b with
      | nil => exact absurd hs (splitSep_ne_nil b)
      | cons p ps =>
          show (if (46 : ℕ) = 46 then [] :: p :: ps else ((46 : ℕ) :: p) :: ps) = [] :: p :: ps
          rw [if_pos rfl]
  | cons c a2 ih =>
      have hc : c ≠ 46 := fun h => ha (by rw [h]; simp)
      have ha2 : 46 ∉ a2 := fun h => ha (by simp [h])
      rw [List.cons_append, splitSep, ih ha2]
      show (if c = 46 then [] :: a2 :: splitSep b else (c :: a2) :: splitSep b) =
        (c :: a2) :: splitSep b
      rw [if_neg hc]

/-- Parsing recovers the three dimensions from a compress-produced entry
name. -/
lemma parseInnerName_innerName (a b c : ℕ) :
    parseInnerName (47 :: innerName a b c) = some (a, b, c) := by
  have hpre : (46 : ℕ) ∉ (47 :: dataCodes : List ℕ) := by decide
  have hsplit : splitSep (47 :: innerName a b c) =
      (47 :: dataCodes) :: natCodes a :: natCodes b :: natCodes c :: [binaryCodes] := by
    unfold innerName
    rw [show (47 : ℕ) :: (dataCodes ++ 46 :: natCodes a ++ 46 :: natCodes b ++
        46 :: natCodes c ++ 46 :: binaryCodes) =
      (47 :: dataCodes) ++ 46 :: (natCodes a ++ 46 :: (natCodes b ++
        46 :: (natCodes c ++ 46 :: binaryCodes))) by simp,
      splitSep_append _ _ hpre, splitSep_append _ _ (natCodes_no_sep a),
      splitSep_append _ _ (natCodes_no_sep b), splitSep_append _ _ (natCodes_no_sep c),
      splitSep_no_sep binaryCodes (by decide)]
  rw [parseInnerName, hsplit,
    (by rfl : ([47 :: dataCodes, natCodes a, natCodes b, natCodes c,
        binaryCodes] : List (List ℕ)).reverse =
      [binaryCodes, natCodes c, natCodes b, natCodes a, 47 :: dataCodes])]
  show (if binaryCodes = binaryCodes ∧ isDigitsB (natCodes a) = true ∧
      isDigitsB (natCodes b) = true ∧ isDigitsB (natCodes c) = true ∧
      dataCodes.isSuffixOf (47 :: dataCodes) = true then
    some (parseDigits (natCodes a), parseDigits (natCodes b), parseDigits (natCodes c))
  else none) = some (a, b, c)
  rw [if_pos ⟨rfl, isDigitsB_natCodes a, isDigitsB_natCodes b, isDigitsB_natCodes c,
    by decide⟩, parseDigits_natCodes, parseDigits_natCodes, parseDigits_natCodes]

/-- C9: compressing a nonempty rectangular (N, H, W, C) float32 word array
and decompressing the produced archive returns the array unchanged; the
archive holds exactly one entry, and its name encodes the per-frame
dimensions as the data.H.W.C.binary pattern (recoverable by the decompress
parser). -/
theorem C9_container_roundtrip (F : List (List (List (List ℕ)))) (H W C : ℕ)
    (hF : F ≠ [])
    (hH : ∀ fr ∈ F, fr.length = H)
    (hW : ∀ fr ∈ F, ∀ row ∈ fr, row.length = W)
    (hC : ∀ fr ∈ F, ∀ row ∈ fr, ∀ px ∈ row, px.length = C)
    (hH1 : 1 ≤ H) (hW1 : 1 ≤ W) (hC1 : 1 ≤ C) :
    decompress4d (compress4d F) = Except.ok F ∧
      (compress4d F).length = 1 ∧
      parseInnerName ((compress4d F).headD ([], [])).1 = some (H, W, C) := by
  have hcomp : compress4d F = [(47 :: innerName H W C,
      F.flatMap (fun frame => frame.flatMap (fun r => r.flatMap (fun p => p))))] := by
    cases F with
    | nil => exact absurd rfl hF
    | cons fr t =>
        have hfrH : fr.length = H := hH fr (by simp)
        cases fr with
        | nil =>
            rw [List.length_nil] at hfrH
            omega
        | cons row t2 =>
            have hrowW : row.length = W := hW (row :: t2) (by simp) row (by simp)
            cases row with
            | nil =>
                rw [List.length_nil] at hrowW
                omega
            | cons px t3 =>
                have hpxC : px.length = C :=
                  hC ((px :: t3) :: t2) (by simp) (px :: t3) (by simp) px (by simp)
                unfold compress4d
                rw [List.headD_cons, List.headD_cons, List.headD_cons, hfrH, hrowW, hpxC]
  refine ⟨?_, by rw [hcomp]; rfl, by rw [hcomp]; exact parseInnerName_innerName H W C⟩
  rw [hcomp, decompress4d, parseInnerName_innerName]
  show (if H * W * C = 0 ∨
      ¬(H * W * C ∣ (F.flatMap (fun frame => frame.flatMap
        (fun r => r.flatMap (fun p => p)))).length) then Except.error ()
    else Except.ok (chunkRows ((F.flatMap (fun frame => frame.flatMap
        (fun r => r.flatMap (fun p => p)))).length / (H * W * C)) H
      (chunkRows ((F.flatMap (fun frame => frame.flatMap
        (fun r => r.flatMap (fun p => p)))).length / (W * C)) W
      (chunkRows ((F.flatMap (fun frame => frame.flatMap
        (fun r => r.flatMap (fun p => p)))).length / C) C
        (F.flatMap (fun frame => frame.flatMap (fun r => r.flatMap (fun p => p)))))))) =
    Except.ok F
  have hpixmem : ∀ p ∈ F.flatMap (fun fr => fr.flatMap (fun r => r)), p.length = C := by
    intro p hp
    rw [List.mem_flatMap] at hp
    obtain ⟨fr, hfr, hp2⟩ := hp
    rw [List.mem_flatMap] at hp2
    obtain ⟨r, hr, hp3⟩ := hp2
    exact hC fr hfr r hr p hp3
  have hrowmem : ∀ r ∈ F.flatMap (fun fr => fr), r.length = W := by
    intro r hr
    rw [List.mem_flatMap] at hr
    obtain ⟨fr, hfr, hr2⟩ := hr
    exact hW fr hfr r hr2
  have hDpix : F.flatMap (fun frame => frame.flatMap (fun r => r.flatMap (fun p => p))) =
      (F.flatMap (fun fr => fr.flatMap (fun r => r))).flatMap (fun p => p) := by
    simp only [List.flatMap_assoc]
  have hpixrows : F.flatMap (fun fr => fr.flatMap (fun r => r)) =
      (F.flatMap (fun fr => fr)).flatMap (fun r => r) := by
    simp only [List.flatMap_assoc]
  have hpixlen : (F.flatMap (fun fr => fr.flatMap (fun r => r))).length =
      (F.flatMap (fun fr => fr)).length * W := by
    rw [hpixrows]
    exact length_flatMap_const2 (fun r => r) W _ hrowmem
  have hrowslen : (F.flatMap (fun fr => fr)).length = F.length * H :=
    length_flatMap_const2 (fun fr => fr) H F hH
  have hdlen : (F.flatMap (fun frame => frame.flatMap
      (fun r => r.flatMap (fun p => p)))).length =
      (F.flatMap (fun fr => fr.flatMap (fun r => r))).length * C := by
    rw [hDpix]
    exact length_flatMap_const2 (fun p => p) C _ hpixmem
  have hdivC : (F.flatMap (fun frame => frame.flatMap
      (fun r => r.flatMap (fun p => p)))).length / C =
      (F.flatMap (fun fr => fr.flatMap (fun r => r))).length := by
    rw [hdlen, Nat.mul_div_cancel _ hC1]
  have hdivWC : (F.flatMap (fun frame => frame.flatMap
      (fun r => r.flatMap (fun p => p)))).length / (W * C) =
      (F.flatMap (fun fr => fr)).length := by
    rw [hdlen, hpixlen, mul_assoc, Nat.mul_div_cancel _ (mul_pos hW1 hC1)]
  have hdivHWC : (F.flatMap (fun frame => frame.flatMap
      (fun r => r.flatMap (fun p => p)))).length / (H * W * C) = F.length := by
    rw [hdlen, hpixlen, hrowslen, show F.length * H * W * C = F.length * (H * W * C) by ring,
      Nat.mul_div_cancel _ (mul_pos (mul_pos hH1 hW1) hC1)]
  have hdvd : H * W * C ∣ (F.flatMap (fun frame => frame.flatMap
      (fun r => r.flatMap (fun p => p)))).length := by
    rw [hdlen, hpixlen, hrowslen]
    exact ⟨F.length, by ring⟩
  rw [if_neg (by push_neg; exact ⟨(mul_pos (mul_pos hH1 hW1) hC1).ne.symm, hdvd⟩)]
  have hinner : chunkRows ((F.flatMap (fun frame => frame.flatMap
      (fun r => r.flatMap (fun p => p)))).length / C) C
      (F.flatMap (fun frame => frame.flatMap (fun r => r.flatMap (fun p => p)))) =
      F.flatMap (fun fr => fr.flatMap (fun r => r)) := by
    rw [hdivC, hDpix]
    exact chunkRows_flatMap _ C hpixmem
  have hmid : chunkRows ((F.flatMap (fun frame => frame.flatMap
      (fun r => r.flatMap (fun p => p)))).length / (W * C)) W
      (F.flatMap (fun fr => fr.flatMap (fun r => r))) =
      F.flatMap (fun fr => fr) := by
    rw [hdivWC, hpixrows]
    exact chunkRows_flatMap _ W hrowmem
  have houter : chunkRows ((F.flatMap (fun frame => frame.flatMap
      (fun r => r.flatMap (fun p => p)))).length / (H * W * C)) H
      (F.flatMap (fun fr => fr)) = F := by
    rw [hdivHWC]
    exact chunkRows_flatMap F H hH
  rw [hinner, hmid, houter]

/-- Witness for C9 on a single-frame 1 x 1 x 2 array. -/
theorem C9_container_roundtrip_witness :
    decompress4d (compress4d [[[[3, 4]]]]) = Except.ok [[[[3, 4]]]] ∧
      (compress4d [[[[3, 4]]]]).length = 1 ∧
      parseInnerName ((compress4d [[[[3, 4]]]]).headD ([], [])).1 = some (1, 1, 2) :=
  C9_container_roundtrip [[[[3, 4]]]] 1 1 2 (by simp)
    (by intro fr hfr; rw [List.mem_singleton] at hfr; rw [hfr]; rfl)
    (by
      intro fr hfr row hrow
      rw [List.mem_singleton] at hfr
      subst hfr
      rw [List.mem_singleton] at hrow
      rw [hrow]
      rfl)
    (by
      intro fr hfr row hrow px hpx
      rw [List.mem_singleton] at hfr
      subst hfr
      rw [List.mem_singleton] at hrow
      subst hrow
      rw [List.mem_singleton] at hpx
      rw [hpx]
      rfl)
    (by norm_num) (by norm_num) (by norm_num)

end CreativeFlow
